import Mathlib

/-!
kapp: history codec and deploy command.

A verification development for two files of the repository:

* `pkg/kapp/diff/resource_with_history.go`: recording and recovering the
  "last applied" snapshot kept in four annotations of a resource;
* `pkg/kapp/cmd/app/deploy.go`: the control flow of `DeployOptions.Run`.

The packages these files call into (`ctlres`, `ChangeFactory`, the cluster
apply package, the UI) are not part of the sources under study.  Their
operations appear here as fields of a record of collaborators, so that every
function of the two files is translated statement by statement over that
record, and every property states which behaviour of a collaborator it relies
on.  Where a property depends on how annotations are written and removed, the
two mods are modelled from the spec on `NestedRes`, a resource whose
annotations map is absent or present.
-/

namespace Kapp

/-- Go `error` values are represented by their message. -/
abbrev Err := String

/-! ## Data model of the history codec -/

def appliedResAnnKey : String := "kapp.k14s.io/original"
def appliedResDiffAnnKey : String := "kapp.k14s.io/original-diff"
def appliedResDiffMD5AnnKey : String := "kapp.k14s.io/original-diff-md5"
def appliedResDiffFullAnnKey : String := "kapp.k14s.io/original-diff-full"

/-- One segment of a `ctlres.Path`: a map key, an array index, or the
"all elements" wildcard. -/
inductive PathPart where
  | mapKey (key : String)
  | arrayIndex (index : Nat)
  | allIndexes
  deriving DecidableEq, Repr

abbrev Path := List PathPart

/-- Go `ctlres.NewPathFromStrings`. -/
def NewPathFromStrings (strs : List String) : Path :=
  strs.map PathPart.mapKey

/-- Go `ctlres.ResourceMatcher`, as far as the two files name it: the matcher
that accepts every resource, and any other matcher (identified by a tag). -/
inductive ResourceMatcher where
  | AllResourceMatcher
  | other (tag : Nat)
  deriving DecidableEq, Repr

/-- Go `ctlres.FieldRemoveMod`. -/
structure FieldRemoveMod where
  ResourceMatcher : ResourceMatcher
  Path : Path
  deriving DecidableEq, Repr

/-- Go `ctlres.StringMapAppendMod`; the Go map `KVs` is listed as pairs. -/
structure StringMapAppendMod where
  ResourceMatcher : ResourceMatcher
  Path : Path
  KVs : List (String × String)
  deriving DecidableEq, Repr

/-- What the history codec observes of a Go `OpsDiff`: the results of its three
methods `MinimalString()`, `MinimalMD5()` and `FullString()`. -/
structure OpsDiff where
  MinimalString : String
  MinimalMD5 : String
  FullString : String
  deriving DecidableEq, Repr

/-- What the history codec observes of a Go `Change`: the results of
`AppliedResource()` and `OpsDiff()`. -/
structure Change (Res : Type) where
  AppliedResource : Res
  OpsDiff : OpsDiff
  deriving DecidableEq, Repr

/-- The operations of the `ctlres` package and of `ChangeFactory` that
`resource_with_history.go` calls.  Their bodies are outside the sources under
study, so they are parameters; `Res` is the type of (non-nil) resources.

* `Annotations r key` is Go `r.Annotations()[key]` (the empty string when the
  key is absent);
* `AsCompactBytes`, `NewResourceFromBytes` are the compact serialization and its
  decoder;
* `FieldRemoveApply`, `StringMapAppendApply` are the `Apply` methods of the two
  mods, returning the modified resource (`Apply` mutates a deep copy in Go);
* `ResourceWithRemovedFields r mods` is
  `NewResourceWithRemovedFields(r, mods).Resource()`;
* `NewExactChange` is `ChangeFactory.NewExactChange`. -/
structure Collaborators (Res : Type) where
  Annotations : Res → String → String
  AsCompactBytes : Res → Except Err String
  NewResourceFromBytes : String → Except Err Res
  FieldRemoveApply : FieldRemoveMod → Res → Except Err Res
  StringMapAppendApply : StringMapAppendMod → Res → Except Err Res
  ResourceWithRemovedFields : Res → List FieldRemoveMod → Except Err Res
  NewExactChange : Res → Res → Except Err (Change Res)

/-- Go `ResourceWithHistory`: the resource, the change factory (held in the
collaborators record) and the configured field exclusions. -/
structure ResourceWithHistory (Res : Type) where
  resource : Res
  changeFactory : Collaborators Res
  diffAgainstLastAppliedFieldExclusionMods : List FieldRemoveMod

/-- Go `NewResourceWithHistory` (the deep copy is the identity on values). -/
def NewResourceWithHistory {Res : Type} (resource : Res) (changeFactory : Collaborators Res)
    (mods : List FieldRemoveMod) : ResourceWithHistory Res :=
  { resource := resource, changeFactory := changeFactory,
    diffAgainstLastAppliedFieldExclusionMods := mods }

/-! ## `resourceWithoutHistory` -/

/-- Go `resourceWithoutHistory.removeAppliedResAnnKeysMods`. -/
def removeAppliedResAnnKeysMods : List FieldRemoveMod :=
  [ { ResourceMatcher := .AllResourceMatcher,
      Path := NewPathFromStrings ["metadata", "annotations", appliedResAnnKey] },
    { ResourceMatcher := .AllResourceMatcher,
      Path := NewPathFromStrings ["metadata", "annotations", appliedResDiffAnnKey] },
    { ResourceMatcher := .AllResourceMatcher,
      Path := NewPathFromStrings ["metadata", "annotations", appliedResDiffMD5AnnKey] },
    { ResourceMatcher := .AllResourceMatcher,
      Path := NewPathFromStrings ["metadata", "annotations", appliedResDiffFullAnnKey] } ]

/-- The loop of `resourceWithoutHistory.Resource`: apply each mod in turn and
stop at the first error. -/
def applyMods {Res : Type} (c : Collaborators Res) : List FieldRemoveMod → Res → Except Err Res
  | [], res => .ok res
  | t :: ts, res =>
    match c.FieldRemoveApply t res with
    | .error err => .error err
    | .ok res1 => applyMods c ts res1

/-- Go `resourceWithoutHistory{res}.Resource()`. -/
def resourceWithoutHistory {Res : Type} (c : Collaborators Res) (res : Res) : Except Err Res :=
  applyMods c removeAppliedResAnnKeysMods res

namespace ResourceWithHistory

variable {Res : Type}

/-- Go `ResourceWithHistory.HistorylessResource`. -/
def HistorylessResource (r : ResourceWithHistory Res) : Except Err Res :=
  resourceWithoutHistory r.changeFactory r.resource

/-- Go `ResourceWithHistory.newExactHistorylessChange`. -/
def newExactHistorylessChange (r : ResourceWithHistory Res) (existingRes newRes : Res) :
    Except Err (Change Res) :=
  match resourceWithoutHistory r.changeFactory existingRes with
  | .error err => .error err
  | .ok existingRes1 =>
    match resourceWithoutHistory r.changeFactory newRes with
    | .error err => .error err
    | .ok newRes1 => r.changeFactory.NewExactChange existingRes1 newRes1

/-- Go `ResourceWithHistory.lastAppliedChange`. -/
def lastAppliedChange (r : ResourceWithHistory Res) (appliedRes : Res) : Except Err (Change Res) :=
  let removeMods := r.diffAgainstLastAppliedFieldExclusionMods
  match r.changeFactory.ResourceWithRemovedFields r.resource removeMods with
  | .error err => .error err
  | .ok existingRes => r.newExactHistorylessChange existingRes appliedRes

/-- Go `ResourceWithHistory.recalculateLastAppliedChange`: the recomputed
changes, the stored digest and the stored minimal diff. -/
def recalculateLastAppliedChange (r : ResourceWithHistory Res) :
    List (Change Res) × String × String :=
  let lastAppliedResBytes := r.changeFactory.Annotations r.resource appliedResAnnKey
  let lastAppliedDiff := r.changeFactory.Annotations r.resource appliedResDiffAnnKey
  let lastAppliedDiffMD5 := r.changeFactory.Annotations r.resource appliedResDiffMD5AnnKey
  if lastAppliedResBytes.length = 0 ∨ lastAppliedDiffMD5.length = 0 then
    ([], "", "")
  else
    match r.changeFactory.NewResourceFromBytes lastAppliedResBytes with
    | .error _ => ([], "", "")
    | .ok lastAppliedRes =>
      match r.newExactHistorylessChange r.resource lastAppliedRes with
      | .error _ => ([], "", "")
      | .ok recalculatedChange1 =>
        match r.lastAppliedChange lastAppliedRes with
        | .error _ => ([], "", "")
        | .ok recalculatedChange2 =>
          ([recalculatedChange1, recalculatedChange2], lastAppliedDiffMD5, lastAppliedDiff)

/-- The loop of `LastAppliedResource`: the applied resource of the first
recomputed change whose digest is the expected one; `none` is Go `nil`.  The
debug printing of the Go loop has no effect on the result and is left out. -/
def firstMatching (expectedDiffMD5 : String) : List (Change Res) → Option Res
  | [] => none
  | recalculatedLastAppliedChange :: rest =>
    if recalculatedLastAppliedChange.OpsDiff.MinimalMD5 = expectedDiffMD5 then
      some recalculatedLastAppliedChange.AppliedResource
    else
      firstMatching expectedDiffMD5 rest

/-- Go `ResourceWithHistory.LastAppliedResource`. -/
def LastAppliedResource (r : ResourceWithHistory Res) : Option Res :=
  match r.recalculateLastAppliedChange with
  | (recalculatedLastAppliedChanges, expectedDiffMD5, _) =>
    firstMatching expectedDiffMD5 recalculatedLastAppliedChanges

/-- The `StringMapAppendMod` that `RecordLastAppliedResource` builds. -/
def historyMod (appliedResBytes : String) (diff : OpsDiff) : StringMapAppendMod :=
  { ResourceMatcher := .AllResourceMatcher,
    Path := NewPathFromStrings ["metadata", "annotations"],
    KVs := [ (appliedResAnnKey, appliedResBytes),
             (appliedResDiffAnnKey, diff.MinimalString),
             (appliedResDiffMD5AnnKey, diff.MinimalMD5),
             (appliedResDiffFullAnnKey, diff.FullString) ] }

/-- Go `ResourceWithHistory.RecordLastAppliedResource`. -/
def RecordLastAppliedResource (r : ResourceWithHistory Res) (appliedRes : Res) : Except Err Res :=
  match r.lastAppliedChange appliedRes with
  | .error err => .error err
  | .ok change =>
    match r.changeFactory.AsCompactBytes change.AppliedResource with
    | .error err => .error err
    | .ok appliedResBytes =>
      let diff := change.OpsDiff
      let t := historyMod appliedResBytes diff
      let resultRes := r.resource
      match r.changeFactory.StringMapAppendApply t resultRes with
      | .error err => .error err
      | .ok resultRes1 => .ok resultRes1

end ResourceWithHistory

/-- The existing side of the change that `lastAppliedChange` diffs: the
resource with the configured exclusions removed, then without history
(lines 105 and 145 of `resource_with_history.go`). -/
def existingForLastApplied {Res : Type} (r : ResourceWithHistory Res) (existingRes : Res) :
    Except Err Res :=
  match r.changeFactory.ResourceWithRemovedFields existingRes
      r.diffAgainstLastAppliedFieldExclusionMods with
  | .error err => .error err
  | .ok existingRes1 => resourceWithoutHistory r.changeFactory existingRes1

/-- The same `ResourceWithHistory` (same change factory, same exclusions) around
another resource. -/
def ResourceWithHistory.withResource {Res : Type} (r : ResourceWithHistory Res) (res : Res) :
    ResourceWithHistory Res :=
  NewResourceWithHistory res r.changeFactory r.diffAgainstLastAppliedFieldExclusionMods

/-- The annotation value length that the comment in `RecordLastAppliedResource`
quotes ("annotation value max length is 262144 characters"). -/
def annotationBudget : Nat := 262144

/-! ## `DeployOptions.Run` -/

/-- The calls of `DeployOptions.Run` to its collaborators, in source order. -/
inductive Call where
  | AppFactory
  | LabelFlagsAsMap
  | AppCreateOrUpdate
  | newResources
  | NewConfFromResourcesWithDefaults
  | PrepareResources
  | AppLabelSelector
  | LabeledResourcesPrepare
  | ResourceFilter
  | AllAndMatching
  | UniqueResourcesMatch
  | ChangeSetCalculate
  | ClusterChangeSetCalculate
  | ChangeSetViewPrint
  | ValidateResources
  | AskForConfirmation
  | showLogs
  | TouchDo
  | ClusterChangeSetApply
  | AppGCChanges
  | PrintDeletedAppChanges
  deriving DecidableEq, Repr

/-- The calls that write to the cluster: `app.CreateOrUpdate` (the application
record), `touch.Do` (it records an app change), `clusterChangeSet.Apply`
(creates, updates and deletes resources) and `app.GCChanges` (deletes old app
changes).  Every other call reads, computes or prints. -/
def Call.isMutating : Call → Bool
  | .AppCreateOrUpdate => true
  | .TouchDo => true
  | .ClusterChangeSetApply => true
  | .AppGCChanges => true
  | _ => false

/-- The flags of `DeployOptions` that `Run` branches on. -/
structure DeployOptions where
  Patch : Bool
  AllowEmpty : Bool
  DiffRun : Bool
  Logs : Bool
  deriving DecidableEq, Repr

/-- The outcome of every collaborator call of `Run`: `none` in an `Option Err`
is a nil error.  `Res` are resources, `Chg` the change set, `CC` a cluster
change and `Gr` the graph of cluster changes.  `labeledResources.Prepare`
labels the resources in place and returns an error only; the list it leaves
has the same length, and every later call is a function of the list it is
given, so the labels need no separate representation.  `TouchBeginChange` is
the outcome of beginning the app change inside `touch.Do`, and
`GCChangesNumDeleted` the count that `app.GCChanges` returns. -/
structure DeployWorld (Res Chg CC Gr : Type) where
  AppFactory : Option Err
  LabelFlagsAsMap : Option Err
  AppCreateOrUpdate : Option Err
  newResources : Except Err (List Res)
  NewConfFromResourcesWithDefaults : List Res → Except Err (List Res)
  PrepareResources : List Res → Except Err (List Res)
  AppLabelSelector : Option Err
  LabeledResourcesPrepare : List Res → Option Err
  ResourceFilter : Except Err (List Res → List Res)
  AllAndMatching : List Res → Except Err (List Res)
  UniqueResourcesMatch : List Res → List Res → Except Err (List Res)
  ChangeSetCalculate : List Res → List Res → Except Err Chg
  ClusterChangeSetCalculate : Chg → Except Err (List CC × Gr)
  ValidateResources : List Res → Option Err
  AskForConfirmation : Option Err
  TouchBeginChange : Option Err
  ClusterChangeSetApply : Gr → Option Err
  GCChangesNumDeleted : Nat

/-- The error of the empty-set refusal (lines 153 and 154 of `deploy.go`). -/
def emptySetError : Err :=
  "Trying to apply empty set of resources which will delete cluster resources. " ++
  "Refusing to continue unless --dangerous-allow-empty-list-of-resources is specified."

/-- What a run of `DeployOptions.Run` leaves behind: the calls made, each with
whether it returned without error; the returned error (`none` is nil); and
three observations of the run: the desired list after filtering (line 134) if
that line was reached, the list of cluster changes if it was computed
(line 174), and whether the run ended at the empty-set refusal (line 153). -/
structure RunResult (Res CC : Type) where
  calls : List (Call × Bool)
  err : Option Err
  newResources : Option (List Res)
  clusterChanges : Option (List CC)
  refusedEmpty : Bool

/-- A run that returns at once with error `err` (`none` is nil). -/
def RunResult.returning {Res CC : Type} (calls : List (Call × Bool)) (err : Option Err)
    (newResources : Option (List Res)) (clusterChanges : Option (List CC)) : RunResult Res CC :=
  { calls := calls, err := err, newResources := newResources,
    clusterChanges := clusterChanges, refusedEmpty := false }

/-- Modelled from the spec: `ctlapp.Touch.Do`, whose body is outside the sources
under study.  The change recorder begins a change, runs the function it is
given (here `clusterChangeSet.Apply`) and marks the change failed or
succeeded; when beginning the change fails the function is not run.  With
`IgnoreSuccessErr` an error of marking success is dropped.  The result is the
calls made and the returned error. -/
def TouchDo {Res Chg CC Gr : Type} (w : DeployWorld Res Chg CC Gr) (clusterChangesGraph : Gr) :
    List (Call × Bool) × Option Err :=
  match w.TouchBeginChange with
  | some err => ([(Call.TouchDo, false)], some err)
  | none =>
    match w.ClusterChangeSetApply clusterChangesGraph with
    | some err => ([(Call.TouchDo, true), (Call.ClusterChangeSetApply, false)], some err)
    | none => ([(Call.TouchDo, true), (Call.ClusterChangeSetApply, true)], none)

/-- The deferred function of `Run` (lines 203 to 208): collect old app changes and
print how many were deleted. -/
def deferredGC {Res Chg CC Gr : Type} (w : DeployWorld Res Chg CC Gr) : List (Call × Bool) :=
  if w.GCChangesNumDeleted > 0 then
    [(Call.AppGCChanges, true), (Call.PrintDeletedAppChanges, true)]
  else
    [(Call.AppGCChanges, true)]

/-- Lines 158 to 219 of `DeployOptions.Run`: from the second filtering to the
apply.  `pre` are the calls made so far. -/
def RunFromChangeSet {Res Chg CC Gr : Type} (o : DeployOptions) (w : DeployWorld Res Chg CC Gr)
    (resourceFilter : List Res → List Res) (pre : List (Call × Bool))
    (newResources existingResources : List Res) : RunResult Res CC :=
  let existingResources := resourceFilter existingResources
  match w.ChangeSetCalculate existingResources newResources with
  | .error err =>
    .returning (pre ++ [(Call.ChangeSetCalculate, false)]) (some err) (some newResources) none
  | .ok changes =>
  let pre := pre ++ [(Call.ChangeSetCalculate, true)]
  match w.ClusterChangeSetCalculate changes with
  | .error err =>
    .returning (pre ++ [(Call.ClusterChangeSetCalculate, false)]) (some err)
      (some newResources) none
  | .ok (clusterChanges, clusterChangesGraph) =>
  let pre := pre ++ [(Call.ClusterChangeSetCalculate, true), (Call.ChangeSetViewPrint, true)]
  match w.ValidateResources newResources with
  | some err =>
    .returning (pre ++ [(Call.ValidateResources, false)]) (some err)
      (some newResources) (some clusterChanges)
  | none =>
  let pre := pre ++ [(Call.ValidateResources, true)]
  if o.DiffRun = true ∨ clusterChanges.length = 0 then
    .returning pre none (some newResources) (some clusterChanges)
  else
  match w.AskForConfirmation with
  | some err =>
    .returning (pre ++ [(Call.AskForConfirmation, false)]) (some err)
      (some newResources) (some clusterChanges)
  | none =>
  let pre := pre ++ [(Call.AskForConfirmation, true)]
  let pre := if o.Logs = true then pre ++ [(Call.showLogs, true)] else pre
  let touched := TouchDo w clusterChangesGraph
  .returning (pre ++ touched.1 ++ deferredGC w) touched.2
    (some newResources) (some clusterChanges)

/-- Lines 129 to 156 of `DeployOptions.Run`: filtering, listing the existing
resources, and the patch or empty-set branch. -/
def RunFromFilter {Res Chg CC Gr : Type} (o : DeployOptions) (w : DeployWorld Res Chg CC Gr)
    (pre : List (Call × Bool)) (newResources : List Res) : RunResult Res CC :=
  match w.ResourceFilter with
  | .error err => .returning (pre ++ [(Call.ResourceFilter, false)]) (some err) none none
  | .ok resourceFilter =>
  let pre := pre ++ [(Call.ResourceFilter, true)]
  let newResources := resourceFilter newResources
  match w.AllAndMatching newResources with
  | .error err =>
    .returning (pre ++ [(Call.AllAndMatching, false)]) (some err) (some newResources) none
  | .ok existingResources =>
  let pre := pre ++ [(Call.AllAndMatching, true)]
  if o.Patch = true then
    match w.UniqueResourcesMatch existingResources newResources with
    | .error err =>
      .returning (pre ++ [(Call.UniqueResourcesMatch, false)]) (some err)
        (some newResources) none
    | .ok existingResources =>
      RunFromChangeSet o w resourceFilter (pre ++ [(Call.UniqueResourcesMatch, true)])
        newResources existingResources
  else
    if newResources.length = 0 ∧ o.AllowEmpty = false then
      { calls := pre, err := some emptySetError, newResources := some newResources,
        clusterChanges := none, refusedEmpty := true }
    else
      RunFromChangeSet o w resourceFilter pre newResources existingResources

/-- Go `DeployOptions.Run` (lines 78 to 127 here, the rest in `RunFromFilter` and
`RunFromChangeSet`).  Pure steps whose value does not reach a branch (the names
of the namespaces, the factories, the change-set view) are left out. -/
def Run {Res Chg CC Gr : Type} (o : DeployOptions) (w : DeployWorld Res Chg CC Gr) :
    RunResult Res CC :=
  match w.AppFactory with
  | some err => .returning [(Call.AppFactory, false)] (some err) none none
  | none =>
  let pre := [(Call.AppFactory, true)]
  match w.LabelFlagsAsMap with
  | some err => .returning (pre ++ [(Call.LabelFlagsAsMap, false)]) (some err) none none
  | none =>
  let pre := pre ++ [(Call.LabelFlagsAsMap, true)]
  match w.AppCreateOrUpdate with
  | some err => .returning (pre ++ [(Call.AppCreateOrUpdate, false)]) (some err) none none
  | none =>
  let pre := pre ++ [(Call.AppCreateOrUpdate, true)]
  match w.newResources with
  | .error err => .returning (pre ++ [(Call.newResources, false)]) (some err) none none
  | .ok newResources =>
  let pre := pre ++ [(Call.newResources, true)]
  match w.NewConfFromResourcesWithDefaults newResources with
  | .error err =>
    .returning (pre ++ [(Call.NewConfFromResourcesWithDefaults, false)]) (some err) none none
  | .ok newResources =>
  let pre := pre ++ [(Call.NewConfFromResourcesWithDefaults, true)]
  match w.PrepareResources newResources with
  | .error err => .returning (pre ++ [(Call.PrepareResources, false)]) (some err) none none
  | .ok newResources =>
  let pre := pre ++ [(Call.PrepareResources, true)]
  match w.AppLabelSelector with
  | some err => .returning (pre ++ [(Call.AppLabelSelector, false)]) (some err) none none
  | none =>
  let pre := pre ++ [(Call.AppLabelSelector, true)]
  match w.LabeledResourcesPrepare newResources with
  | some err =>
    .returning (pre ++ [(Call.LabeledResourcesPrepare, false)]) (some err) none none
  | none =>
  RunFromFilter o w (pre ++ [(Call.LabeledResourcesPrepare, true)]) newResources

/-! ## Retry on conflict -/

/-- The answer of the cluster to an update: the saved resource, a conflict with
the reason the cluster gives, or another error. -/
inductive UpdateResult (Res : Type) where
  | saved (res : Res)
  | conflict (reason : String)
  | failed (err : Err)

/-- The cluster as the update of one resource sees it: the answer to the
`n`-th update call and the live resource read after the `n`-th conflict. -/
structure ClusterClient (Res : Type) where
  Update : Nat → Res → UpdateResult Res
  Get : Nat → Except Err Res

/-- The description of a conflict that changed the approved diff. -/
def resourceConflictDescription : String :=
  "Failed to update due to resource conflict (approved diff no longer matches)"

/-- The error of a conflict whose recomputed diff is not the approved one; the
two parts are the ones `TestUpdateRetryOnConflict_WithConflict` looks for. -/
def resourceConflictError (reason : String) : Err :=
  resourceConflictDescription ++ ": " ++ reason

/-- Modelled from the spec: the retry-on-conflict loop of the cluster-apply
executor (package `clusterapply`, whose update code is outside the sources
under study).  On a conflict the executor re-reads the live resource,
recomputes the change against it with the same desired resource and the same
change factory `NewChange` (the one `Run` builds from the config at line 160),
and compares the `MinimalMD5` of the new ops diff with the approved digest:
equal, the update is retried; different, the update fails with
`resourceConflictError`.  `attempts` bounds the number of update calls and `n`
counts the calls made. -/
def updateWithRetry {Res : Type} (NewChange : Res → Res → Except Err (Change Res))
    (cluster : ClusterClient Res) (approvedMD5 : String) (desired : Res) :
    (attempts : Nat) → (n : Nat) → (payload : Res) → Except Err Res
  | 0, _, _ => .error "Failed to update: retries exhausted"
  | attempts + 1, n, payload =>
    match cluster.Update n payload with
    | .saved res => .ok res
    | .failed err => .error err
    | .conflict reason =>
      match cluster.Get n with
      | .error err => .error err
      | .ok fresh =>
        match NewChange fresh desired with
        | .error err => .error err
        | .ok recomputed =>
          if recomputed.OpsDiff.MinimalMD5 = approvedMD5 then
            updateWithRetry NewChange cluster approvedMD5 desired attempts (n + 1)
              recomputed.AppliedResource
          else
            .error (resourceConflictError reason)

/-- The message `msg` contains `part`. -/
def Contains (msg part : String) : Prop :=
  part.data <:+: msg.data

/-! ## A small instance of the collaborators

The properties below hold for every instance of `Collaborators`.  The instance
here makes their hypotheses concrete: resources with a string map of
annotations and a string map of other top-level fields. -/

/-- Modelled from the spec: a resource, reduced to what the history codec looks
at: `metadata.annotations`, a mapping from string to string, and the other
top-level fields with their (leaf) values. -/
structure SampleRes where
  annotations : List (String × String)
  fields : List (String × String)
  deriving DecidableEq, Repr

/-- Map write: replace the value of an existing key, or add the key. -/
def setKV (k v : String) : List (String × String) → List (String × String)
  | [] => [(k, v)]
  | (k1, v1) :: rest => if k1 = k then (k, v) :: rest else (k1, v1) :: setKV k v rest

/-- Map delete. -/
def eraseKey (k : String) (m : List (String × String)) : List (String × String) :=
  m.filter (fun kv => decide (kv.1 ≠ k))

/-- Map read, with the empty string for an absent key as in Go. -/
def getKV (k : String) : List (String × String) → String
  | [] => ""
  | (k1, v1) :: rest => if k1 = k then v1 else getKV k rest

/-- Whether a key is present. -/
def hasKey (k : String) (m : List (String × String)) : Bool :=
  m.any (fun kv => decide (kv.1 = k))

/-- Modelled from the spec: `Remove(path)` on a `SampleRes`.  Removing an absent
key changes nothing; a path that goes on below a leaf value fails with
`InvalidPath`, as does an index at a map. -/
def sampleRemove (path : Path) (r : SampleRes) : Except Err SampleRes :=
  match path with
  | [] => .ok r
  | [.mapKey "metadata"] => .ok { r with annotations := [] }
  | [.mapKey "metadata", .mapKey "annotations"] => .ok { r with annotations := [] }
  | .mapKey "metadata" :: .mapKey "annotations" :: .mapKey k :: rest =>
    if rest = [] then .ok { r with annotations := eraseKey k r.annotations }
    else if hasKey k r.annotations then .error "InvalidPath" else .ok r
  | .mapKey "metadata" :: .mapKey "annotations" :: _ :: _ => .error "InvalidPath"
  | .mapKey "metadata" :: _ :: _ => .ok r
  | [.mapKey f] => .ok { r with fields := eraseKey f r.fields }
  | .mapKey f :: _ :: _ => if hasKey f r.fields then .error "InvalidPath" else .ok r
  | _ => .error "InvalidPath"

/-- `FieldRemoveMod.Apply` on a `SampleRes`: a mod whose matcher does not accept
the resource leaves it unchanged. -/
def sampleFieldRemoveApply (t : FieldRemoveMod) (r : SampleRes) : Except Err SampleRes :=
  match t.ResourceMatcher with
  | .AllResourceMatcher => sampleRemove t.Path r
  | .other _ => .ok r

/-- `StringMapAppendMod.Apply` on a `SampleRes`: the only string map is
`metadata.annotations`. -/
def sampleStringMapAppendApply (t : StringMapAppendMod) (r : SampleRes) : Except Err SampleRes :=
  match t.ResourceMatcher with
  | .other _ => .ok r
  | .AllResourceMatcher =>
    if t.Path = NewPathFromStrings ["metadata", "annotations"] then
      .ok { r with annotations := t.KVs.foldl (fun m kv => setKV kv.1 kv.2 m) r.annotations }
    else
      .error "InvalidPath"

/-- `NewResourceWithRemovedFields(r, mods).Resource()` on a `SampleRes`. -/
def sampleResourceWithRemovedFields : SampleRes → List FieldRemoveMod → Except Err SampleRes
  | r, [] => .ok r
  | r, t :: ts =>
    match sampleFieldRemoveApply t r with
    | .error err => .error err
    | .ok r1 => sampleResourceWithRemovedFields r1 ts

/-- The entries of a map in the compact form: tag, key, `=`, value, `;`. -/
def renderKVs (tag : String) : List (String × String) → String
  | [] => ""
  | (k, v) :: rest => tag ++ k ++ "=" ++ v ++ ";" ++ renderKVs tag rest

/-- Modelled from the spec: `AsCompactBytes()` on a `SampleRes`, a serialization
without insignificant whitespace.  It is never empty. -/
def sampleRender (r : SampleRes) : String :=
  "res;" ++ renderKVs "a:" r.annotations ++ renderKVs "f:" r.fields

/-- Split at every separator. -/
def splitOnChar (sep : Char) : List Char → List (List Char)
  | [] => [[]]
  | c :: cs =>
    if c = sep then [] :: splitOnChar sep cs
    else
      match splitOnChar sep cs with
      | [] => [[c]]
      | h :: t => (c :: h) :: t

/-- Split at the first separator. -/
def breakAtChar (sep : Char) : List Char → Option (List Char × List Char)
  | [] => none
  | c :: cs =>
    if c = sep then some ([], cs)
    else
      match breakAtChar sep cs with
      | none => none
      | some (a, b) => some (c :: a, b)

/-- Decode the entries of the compact form; the text ends with a separator, so
the last piece is empty. -/
def parseEntries : List (List Char) → Except Err SampleRes
  | [] => .error "unexpected end"
  | [[]] => .ok { annotations := [], fields := [] }
  | entry :: rest =>
    match parseEntries rest with
    | .error err => .error err
    | .ok r =>
      match entry with
      | 'a' :: ':' :: kv =>
        match breakAtChar '=' kv with
        | none => .error "missing ="
        | some (k, v) => .ok { r with annotations := (String.mk k, String.mk v) :: r.annotations }
      | 'f' :: ':' :: kv =>
        match breakAtChar '=' kv with
        | none => .error "missing ="
        | some (k, v) => .ok { r with fields := (String.mk k, String.mk v) :: r.fields }
      | _ => .error "unknown entry"

/-- Modelled from the spec: `NewResourceFromBytes` on the compact form of a
`SampleRes`; anything else does not decode. -/
def sampleParse (bytes : String) : Except Err SampleRes :=
  match splitOnChar ';' bytes.data with
  | ['r', 'e', 's'] :: entries => parseEntries entries
  | _ => .error "not a resource"

/-- A stand-in for the ops diff of two `SampleRes`: its minimal string names both
sides, and its digest is a function of the minimal string, as `MinimalMD5` is. -/
def sampleOpsDiff (existingRes newRes : SampleRes) : OpsDiff :=
  let minimal := sampleRender existingRes ++ " => " ++ sampleRender newRes
  { MinimalString := minimal,
    MinimalMD5 := "md5(" ++ minimal ++ ")",
    FullString := "full " ++ minimal }

/-- Modelled from the spec: `NewExactChange(a, b)`, which bypasses templating and
rebase: the applied resource is `b` and the ops diff is the one of `a` and
`b`. -/
def sampleNewExactChange (existingRes newRes : SampleRes) : Except Err (Change SampleRes) :=
  .ok { AppliedResource := newRes, OpsDiff := sampleOpsDiff existingRes newRes }

/-- The collaborators over `SampleRes`. -/
def sampleCollaborators : Collaborators SampleRes :=
  { Annotations := fun r key => getKV key r.annotations,
    AsCompactBytes := fun r => .ok (sampleRender r),
    NewResourceFromBytes := sampleParse,
    FieldRemoveApply := sampleFieldRemoveApply,
    StringMapAppendApply := sampleStringMapAppendApply,
    ResourceWithRemovedFields := sampleResourceWithRemovedFields,
    NewExactChange := sampleNewExactChange }

/-- A `ResourceWithHistory` over the sample collaborators. -/
def sampleWithHistory (res : SampleRes) (mods : List FieldRemoveMod) :
    ResourceWithHistory SampleRes :=
  NewResourceWithHistory res sampleCollaborators mods

/-! ## What the properties assume of the collaborators -/

/-- The path of the annotations map. -/
def annotationsPath : Path := NewPathFromStrings ["metadata", "annotations"]

/-- Annotations written by a `StringMapAppendMod` at `metadata.annotations` are
the ones `Annotations()` reads afterwards (the keys of a Go map are
distinct). -/
def AnnotationsReadBack {Res : Type} (c : Collaborators Res) : Prop :=
  ∀ (t : StringMapAppendMod) (r r1 : Res),
    t.ResourceMatcher = .AllResourceMatcher → t.Path = annotationsPath →
    (t.KVs.map Prod.fst).Nodup → c.StringMapAppendApply t r = .ok r1 →
    ∀ kv ∈ t.KVs, c.Annotations r1 kv.1 = kv.2

/-- The applied resource of an exact change is its new resource:
`NewExactChange` bypasses templating and rebase. -/
def ExactChangeAppliesNew {Res : Type} (c : Collaborators Res) : Prop :=
  ∀ (existingRes newRes : Res) (ch : Change Res),
    c.NewExactChange existingRes newRes = .ok ch → ch.AppliedResource = newRes

/-- The call `NewExactChange` returns a change for every pair of resources. -/
def ExactChangeTotal {Res : Type} (c : Collaborators Res) : Prop :=
  ∀ (existingRes newRes : Res), ∃ ch, c.NewExactChange existingRes newRes = .ok ch

/-- A digest is never the empty string (an MD5 digest has 32 hex digits). -/
def DigestNonEmpty {Res : Type} (c : Collaborators Res) : Prop :=
  ∀ (existingRes newRes : Res) (ch : Change Res),
    c.NewExactChange existingRes newRes = .ok ch → ch.OpsDiff.MinimalMD5.length ≠ 0

/-- The compact serialization of `a` is not empty and decodes to `a`. -/
def DecodesBack {Res : Type} (c : Collaborators Res) (a : Res) : Prop :=
  ∀ bytes, c.AsCompactBytes a = .ok bytes →
    bytes.length ≠ 0 ∧ c.NewResourceFromBytes bytes = .ok a

/-! ## Sample data -/

/-- A live resource without annotations. -/
def liveSpecV1 : SampleRes := { annotations := [], fields := [("spec", "v1")] }

/-- An applied resource without annotations. -/
def appliedSpecV2 : SampleRes := { annotations := [], fields := [("spec", "v2")] }

/-- An applied resource that carries a history annotation of its own, as a
resource copied from a cluster does. -/
def appliedWithStaleHistory : SampleRes :=
  { annotations := [(appliedResDiffAnnKey, "stale")], fields := [("spec", "v2")] }

/-- The result of recording `appliedSpecV2` (or `appliedWithStaleHistory`) on
`liveSpecV1`. -/
def recordedSpecV2 : SampleRes :=
  { annotations :=
      [ (appliedResAnnKey, "res;f:spec=v2;"),
        (appliedResDiffAnnKey, "res;f:spec=v1; => res;f:spec=v2;"),
        (appliedResDiffMD5AnnKey, "md5(res;f:spec=v1; => res;f:spec=v2;)"),
        (appliedResDiffFullAnnKey, "full res;f:spec=v1; => res;f:spec=v2;") ],
    fields := [("spec", "v1")] }


/-- A field exclusion whose path goes on below the leaf value of `spec`. -/
def nestedExclusion : FieldRemoveMod :=
  { ResourceMatcher := .AllResourceMatcher, Path := NewPathFromStrings ["spec", "x"] }

/-- The field exclusion of the top-level field `status`. -/
def statusExclusion : FieldRemoveMod :=
  { ResourceMatcher := .AllResourceMatcher, Path := NewPathFromStrings ["status"] }

/-- A live resource with a server-written `status`. -/
def liveWithStatus : SampleRes :=
  { annotations := [], fields := [("spec", "v1"), ("status", "s1")] }

/-- The result of recording `appliedSpecV2` (or `appliedWithStaleHistory`) on
`liveWithStatus` with `status` excluded. -/
def recordedWithStatus : SampleRes :=
  { recordedSpecV2 with fields := [("spec", "v1"), ("status", "s1")] }

/-- A value of 262144 characters. -/
def bigValue : String := String.mk (List.replicate 262144 'x')

/-- An applied resource whose compact form is longer than the annotation
budget. -/
def bigApplied : SampleRes := { annotations := [], fields := [("data", bigValue)] }

/-- The result of recording `bigApplied` on `liveSpecV1`. -/
def recordedBig : SampleRes :=
  { annotations :=
      [ (appliedResAnnKey, sampleRender bigApplied),
        (appliedResDiffAnnKey, (sampleOpsDiff liveSpecV1 bigApplied).MinimalString),
        (appliedResDiffMD5AnnKey, (sampleOpsDiff liveSpecV1 bigApplied).MinimalMD5),
        (appliedResDiffFullAnnKey, (sampleOpsDiff liveSpecV1 bigApplied).FullString) ],
    fields := [("spec", "v1")] }

/-- A world in which every call succeeds; the desired resources are read from
`desired`, one cluster change is computed per desired resource, and nothing
is filtered out. -/
def calmWorld (desired : List Nat) : DeployWorld Nat (List Nat) Nat Unit :=
  { AppFactory := none,
    LabelFlagsAsMap := none,
    AppCreateOrUpdate := none,
    newResources := .ok desired,
    NewConfFromResourcesWithDefaults := fun rs => .ok rs,
    PrepareResources := fun rs => .ok rs,
    AppLabelSelector := none,
    LabeledResourcesPrepare := fun _ => none,
    ResourceFilter := .ok (fun rs => rs),
    AllAndMatching := fun _ => .ok [],
    UniqueResourcesMatch := fun existing _ => .ok existing,
    ChangeSetCalculate := fun _ new => .ok new,
    ClusterChangeSetCalculate := fun changes => .ok (changes, ()),
    ValidateResources := fun _ => none,
    AskForConfirmation := none,
    TouchBeginChange := none,
    ClusterChangeSetApply := fun _ => none,
    GCChangesNumDeleted := 0 }

/-- The world `calmWorld` in which resource validation fails. -/
def invalidWorld (desired : List Nat) : DeployWorld Nat (List Nat) Nat Unit :=
  { calmWorld desired with ValidateResources := fun _ => some "validation failed" }

/-- The calls of `Run` before the resource filter, all without error. -/
def callsBeforeFilter : List (Call × Bool) :=
  [ (Call.AppFactory, true), (Call.LabelFlagsAsMap, true), (Call.AppCreateOrUpdate, true),
    (Call.newResources, true), (Call.NewConfFromResourcesWithDefaults, true),
    (Call.PrepareResources, true), (Call.AppLabelSelector, true),
    (Call.LabeledResourcesPrepare, true) ]

/-- A cluster that answers the first update with a conflict and accepts the
second; the live resource read after the conflict is `fresh`. -/
def conflictOnce (fresh : Nat) : ClusterClient Nat :=
  { Update := fun n res => if n = 0 then .conflict "reason: Conflict" else .saved res,
    Get := fun _ => .ok fresh }

/-- A cluster that answers the first two updates with a conflict and accepts the
third; the live resource read after the first conflict is `fresh0`, after the
second `fresh1`. -/
def conflictTwice (fresh0 fresh1 : Nat) : ClusterClient Nat :=
  { Update := fun n res =>
      if n = 0 then .conflict "reason: Conflict"
      else if n = 1 then .conflict "reason: Conflict again" else .saved res,
    Get := fun n => if n = 0 then .ok fresh0 else .ok fresh1 }

/-- A change factory over numbers: the diff of `existing` and `desired` is
their difference in unary, so that two live resources give the same digest
exactly when they are as far from the desired one. -/
def unaryChange (existingRes desired : Nat) : Except Err (Change Nat) :=
  .ok { AppliedResource := desired,
        OpsDiff := { MinimalString := String.mk (List.replicate (desired - existingRes) '+'),
                     MinimalMD5 := String.mk (List.replicate (desired - existingRes) '+'),
                     FullString := "" } }

/-! ## `DeployOptions.nsNames` -/

/-- Go `sort.Strings`: the strings in increasing order.  Go compares strings
byte by byte, which on UTF-8 is the order of the code points, the order of
`String` here.  A list has one sorted arrangement only, so the sorting
algorithm does not matter; insertion sort is used. -/
def sortStrings (names : List String) : List String :=
  names.insertionSort (fun a b => a ≤ b)

/-- The name under which `nsNames` lists the namespace of a resource: the
namespace, or `(cluster)` for the empty namespace (lines 248 to 251). -/
def nsNameOf {Res : Type} (Namespace : Res → String) (res : Res) : String :=
  let ns := Namespace res
  if ns = "" then "(cluster)" else ns

/-- The loop of `nsNames` (lines 247 to 256) on the state `(uniqNames, names)`:
the keys of the Go map `uniqNames` are held in a list, and a name not found
among them is appended to `names` and added to `uniqNames`. -/
def nsNamesLoop {Res : Type} (Namespace : Res → String) :
    List Res → List String × List String → List String × List String
  | [], state => state
  | res :: rest, (uniqNames, names) =>
    let ns := nsNameOf Namespace res
    if ns ∈ uniqNames then nsNamesLoop Namespace rest (uniqNames, names)
    else nsNamesLoop Namespace rest (ns :: uniqNames, names ++ [ns])

/-- Go `DeployOptions.nsNames`; `Namespace` is the method `Namespace()` of a
resource. -/
def nsNames {Res : Type} (Namespace : Res → String) (resources : List Res) : List String :=
  sortStrings (nsNamesLoop Namespace resources ([], [])).2

/-! ## A resource model that tells an absent annotations map from an empty one -/

/-- The four history annotation keys. -/
def historyKeys : List String :=
  [appliedResAnnKey, appliedResDiffAnnKey, appliedResDiffMD5AnnKey, appliedResDiffFullAnnKey]

/-- Modelled from the spec: a resource as a nested mapping of fields, reduced to
what the history codec looks at.  `metadata.annotations` is a field like any
other: it is absent (`none`) or holds a mapping from string to string, which
may be empty; the other top-level fields hold leaf values. -/
structure NestedRes where
  annotations : Option (List (String × String))
  fields : List (String × String)
  deriving DecidableEq, Repr

/-- Modelled from the spec: `Remove(path)` below `metadata.annotations`.  With no
path left the annotations map itself is removed.  A key is removed from the
map, which stays even when that was its last key; a path that goes on below an
annotation value fails with `InvalidPath`, as does an index at the map. -/
def removeInAnnotations : Path → NestedRes → Except Err NestedRes
  | [], r => .ok { r with annotations := none }
  | part :: rest, r =>
    match r.annotations with
    | none => .ok r
    | some m =>
      match part with
      | .mapKey key =>
        if rest = [] then .ok { r with annotations := some (eraseKey key m) }
        else if hasKey key m then .error "InvalidPath" else .ok r
      | _ => .error "InvalidPath"

/-- Modelled from the spec: `Remove(path)` below `metadata`.  Of the fields of
`metadata` only `annotations` is represented. -/
def removeInMetadata : Path → NestedRes → Except Err NestedRes
  | [], r => .ok { r with annotations := none }
  | .mapKey key :: rest, r =>
    if key = "annotations" then removeInAnnotations rest r else .ok r
  | _ :: _, _ => .error "InvalidPath"

/-- Modelled from the spec: `Remove(path)` at a top-level field other than
`metadata`, which holds a leaf value. -/
def removeInField (key : String) (rest : Path) (r : NestedRes) : Except Err NestedRes :=
  if rest = [] then .ok { r with fields := eraseKey key r.fields }
  else if hasKey key r.fields then .error "InvalidPath" else .ok r

/-- Modelled from the spec: `Remove(path)` on a `NestedRes`.  Removing an absent
field changes nothing; a path that traverses a value that is not a map fails
with `InvalidPath`. -/
def nestedRemove : Path → NestedRes → Except Err NestedRes
  | [], r => .ok r
  | .mapKey key :: rest, r =>
    if key = "metadata" then removeInMetadata rest r else removeInField key rest r
  | _ :: _, _ => .error "InvalidPath"

/-- Modelled from the spec: `FieldRemoveMod.Apply` on a `NestedRes`, the removal
of the field at the path of the mod; a mod whose matcher does not accept the
resource leaves it unchanged. -/
def nestedFieldRemoveApply (t : FieldRemoveMod) (r : NestedRes) : Except Err NestedRes :=
  match t.ResourceMatcher with
  | .AllResourceMatcher => nestedRemove t.Path r
  | .other _ => .ok r

/-- Modelled from the spec: `StringMapAppendMod.Apply` on a `NestedRes`.  The
only string map is `metadata.annotations`; writing into it creates the map
when the resource has none, as recording history on a resource without
annotations requires. -/
def nestedStringMapAppendApply (t : StringMapAppendMod) (r : NestedRes) :
    Except Err NestedRes :=
  match t.ResourceMatcher with
  | .other _ => .ok r
  | .AllResourceMatcher =>
    if t.Path = annotationsPath then
      let m := t.KVs.foldl (fun m kv => setKV kv.1 kv.2 m) (r.annotations.getD [])
      .ok { r with annotations := some m }
    else
      .error "InvalidPath"

/-- Modelled from the spec: `NewResourceWithRemovedFields(r, mods).Resource()` on
a `NestedRes`: the mods are applied in turn, up to the first error. -/
def nestedResourceWithRemovedFields : NestedRes → List FieldRemoveMod → Except Err NestedRes
  | r, [] => .ok r
  | r, t :: ts =>
    match nestedFieldRemoveApply t r with
    | .error err => .error err
    | .ok r1 => nestedResourceWithRemovedFields r1 ts

/-- Modelled from the spec: `Annotations()[key]` on a `NestedRes`, the empty
string when the map or the key is absent. -/
def nestedAnnotations (r : NestedRes) (key : String) : String :=
  match r.annotations with
  | none => ""
  | some m => getKV key m

/-- The collaborators over `NestedRes`.  The serialization, its decoder and
`NewExactChange` stay parameters. -/
def nestedCollaborators (AsCompactBytes : NestedRes → Except Err String)
    (NewResourceFromBytes : String → Except Err NestedRes)
    (NewExactChange : NestedRes → NestedRes → Except Err (Change NestedRes)) :
    Collaborators NestedRes :=
  { Annotations := nestedAnnotations,
    AsCompactBytes := AsCompactBytes,
    NewResourceFromBytes := NewResourceFromBytes,
    FieldRemoveApply := nestedFieldRemoveApply,
    StringMapAppendApply := nestedStringMapAppendApply,
    ResourceWithRemovedFields := nestedResourceWithRemovedFields,
    NewExactChange := NewExactChange }

/-- An annotations map without the four history keys. -/
def eraseHistory (m : List (String × String)) : List (String × String) :=
  eraseKey appliedResDiffFullAnnKey (eraseKey appliedResDiffMD5AnnKey
    (eraseKey appliedResDiffAnnKey (eraseKey appliedResAnnKey m)))

/-- A `NestedRes` without its history annotations: what `resourceWithoutHistory`
computes on it.  An absent annotations map stays absent and a present one
stays present. -/
def withoutHistoryAnnotations (r : NestedRes) : NestedRes :=
  { r with annotations := r.annotations.map eraseHistory }

/-- Whether the path of a field exclusion goes on below one of the four history
annotations. -/
def belowHistoryKey (t : FieldRemoveMod) : Bool :=
  match t.Path with
  | .mapKey a :: .mapKey b :: .mapKey key :: _ :: _ =>
    decide (a = "metadata") && decide (b = "annotations") && decide (key ∈ historyKeys)
  | _ => false

/-- The compact form of a `NestedRes`: the header tells whether the annotations
map is present, as a serialization of the nested mapping does. -/
def nestedRender (r : NestedRes) : String :=
  match r.annotations with
  | none => "res;" ++ renderKVs "f:" r.fields
  | some m => "res+;" ++ renderKVs "a:" m ++ renderKVs "f:" r.fields

/-- The decoder of `nestedRender`. -/
def nestedParse (bytes : String) : Except Err NestedRes :=
  match splitOnChar ';' bytes.data with
  | ['r', 'e', 's'] :: entries =>
    match parseEntries entries with
    | .error err => .error err
    | .ok r =>
      if r.annotations = [] then .ok { annotations := none, fields := r.fields }
      else .error "annotations without a map"
  | ['r', 'e', 's', '+'] :: entries =>
    match parseEntries entries with
    | .error err => .error err
    | .ok r => .ok { annotations := some r.annotations, fields := r.fields }
  | _ => .error "not a resource"

/-- A stand-in for the ops diff of two `NestedRes`: its minimal string names both
sides, so that it differs whenever one side does, as a structural diff of the
two nested mappings differs when one side has an empty `annotations` map and
the other none. -/
def nestedOpsDiff (existingRes newRes : NestedRes) : OpsDiff :=
  let minimal := nestedRender existingRes ++ " => " ++ nestedRender newRes
  { MinimalString := minimal,
    MinimalMD5 := "md5(" ++ minimal ++ ")",
    FullString := "full " ++ minimal }

/-- Modelled from the spec: `NewExactChange(a, b)` on `NestedRes`: the applied
resource is `b` and the ops diff is the one of `a` and `b`. -/
def nestedNewExactChange (existingRes newRes : NestedRes) : Except Err (Change NestedRes) :=
  .ok { AppliedResource := newRes, OpsDiff := nestedOpsDiff existingRes newRes }

/-- The collaborators over `NestedRes` with the serialization `nestedRender`. -/
def nestedSample : Collaborators NestedRes :=
  nestedCollaborators (fun r => .ok (nestedRender r)) nestedParse nestedNewExactChange

/-- A live resource without `metadata.annotations`, like the Service of the
retry-on-conflict tests. -/
def bareLive : NestedRes := { annotations := none, fields := [("spec", "v1")] }

/-- An applied resource without `metadata.annotations`. -/
def bareApplied : NestedRes := { annotations := none, fields := [("spec", "v2")] }

/-- The result of recording `bareApplied` on `bareLive`. -/
def bareRecorded : NestedRes :=
  { annotations := some
      [ (appliedResAnnKey, "res;f:spec=v2;"),
        (appliedResDiffAnnKey, "res;f:spec=v1; => res;f:spec=v2;"),
        (appliedResDiffMD5AnnKey, "md5(res;f:spec=v1; => res;f:spec=v2;)"),
        (appliedResDiffFullAnnKey, "full res;f:spec=v1; => res;f:spec=v2;") ],
    fields := [("spec", "v1")] }

/-- A live resource with an annotation of its own and a server-written
`status`. -/
def notedLive : NestedRes :=
  { annotations := some [("note", "n1")], fields := [("spec", "v1"), ("status", "s1")] }

/-- An applied resource that carries a history annotation of its own. -/
def notedAppliedStale : NestedRes :=
  { annotations := some [("note", "n2"), (appliedResDiffAnnKey, "stale")],
    fields := [("spec", "v2")] }

/-- The resource `notedAppliedStale` without its history annotation. -/
def notedApplied : NestedRes :=
  { annotations := some [("note", "n2")], fields := [("spec", "v2")] }

/-- The result of recording `notedAppliedStale` on `notedLive` with `status`
excluded. -/
def notedRecorded : NestedRes :=
  { annotations := some
      [ ("note", "n1"),
        (appliedResAnnKey, "res+;a:note=n2;f:spec=v2;"),
        (appliedResDiffAnnKey, "res+;a:note=n1;f:spec=v1; => res+;a:note=n2;f:spec=v2;"),
        (appliedResDiffMD5AnnKey,
          "md5(res+;a:note=n1;f:spec=v1; => res+;a:note=n2;f:spec=v2;)"),
        (appliedResDiffFullAnnKey,
          "full res+;a:note=n1;f:spec=v1; => res+;a:note=n2;f:spec=v2;") ],
    fields := [("spec", "v1"), ("status", "s1")] }

/-- The resource `notedRecorded` after the server changed `status`. -/
def notedStatusChanged : NestedRes :=
  { notedRecorded with fields := [("spec", "v1"), ("status", "s2")] }

/-- A field exclusion whose path goes on below the `original` annotation. -/
def belowOriginalExclusion : FieldRemoveMod :=
  { ResourceMatcher := .AllResourceMatcher,
    Path := NewPathFromStrings ["metadata", "annotations", appliedResAnnKey, "x"] }

/-! ## Lemmas -/

section HistoryLemmas

variable {Res : Type}

theorem firstMatching_pair (m : String) (c1 c2 : Change Res) :
    ResourceWithHistory.firstMatching m [c1, c2] =
      if c1.OpsDiff.MinimalMD5 = m then some c1.AppliedResource
      else if c2.OpsDiff.MinimalMD5 = m then some c2.AppliedResource else none := by
  simp [ResourceWithHistory.firstMatching]

theorem lastApplied_of_recomputed (r : ResourceWithHistory Res) (R : Res) (c1 c2 : Change Res)
    (hb : (r.changeFactory.Annotations r.resource appliedResAnnKey).length ≠ 0)
    (hm : (r.changeFactory.Annotations r.resource appliedResDiffMD5AnnKey).length ≠ 0)
    (hdec : r.changeFactory.NewResourceFromBytes
      (r.changeFactory.Annotations r.resource appliedResAnnKey) = .ok R)
    (h1 : r.newExactHistorylessChange r.resource R = .ok c1)
    (h2 : r.lastAppliedChange R = .ok c2) :
    r.LastAppliedResource =
      if c1.OpsDiff.MinimalMD5 = r.changeFactory.Annotations r.resource appliedResDiffMD5AnnKey
      then some c1.AppliedResource
      else if c2.OpsDiff.MinimalMD5 = r.changeFactory.Annotations r.resource appliedResDiffMD5AnnKey
      then some c2.AppliedResource else none := by
  unfold ResourceWithHistory.LastAppliedResource ResourceWithHistory.recalculateLastAppliedChange
  simp only [hb, hm, or_self, if_false, hdec, h1, h2]
  exact firstMatching_pair _ c1 c2

theorem lastAppliedChange_eq (r : ResourceWithHistory Res) (appliedRes : Res) :
    r.lastAppliedChange appliedRes =
      match existingForLastApplied r r.resource with
      | .error err => .error err
      | .ok e =>
        match resourceWithoutHistory r.changeFactory appliedRes with
        | .error err => .error err
        | .ok a => r.changeFactory.NewExactChange e a := by
  unfold ResourceWithHistory.lastAppliedChange existingForLastApplied
    ResourceWithHistory.newExactHistorylessChange
  cases h : r.changeFactory.ResourceWithRemovedFields r.resource
      r.diffAgainstLastAppliedFieldExclusionMods with
  | error e => simp only [h]
  | ok x =>
    simp only [h]

theorem record_ok (r : ResourceWithHistory Res) (appliedRes resultRes : Res)
    (h : r.RecordLastAppliedResource appliedRes = .ok resultRes) :
    ∃ e a ch bytes,
      existingForLastApplied r r.resource = .ok e ∧
      resourceWithoutHistory r.changeFactory appliedRes = .ok a ∧
      r.changeFactory.NewExactChange e a = .ok ch ∧
      r.changeFactory.AsCompactBytes ch.AppliedResource = .ok bytes ∧
      r.changeFactory.StringMapAppendApply
        (ResourceWithHistory.historyMod bytes ch.OpsDiff) r.resource = .ok resultRes := by
  unfold ResourceWithHistory.RecordLastAppliedResource at h
  rw [lastAppliedChange_eq] at h
  cases he : existingForLastApplied r r.resource with
  | error e => simp [he] at h
  | ok e =>
    cases ha : resourceWithoutHistory r.changeFactory appliedRes with
    | error e1 => simp [he, ha] at h
    | ok a =>
      cases hc : r.changeFactory.NewExactChange e a with
      | error e2 => simp [he, ha, hc] at h
      | ok ch =>
        cases hbytes : r.changeFactory.AsCompactBytes ch.AppliedResource with
        | error e3 => simp [he, ha, hc, hbytes] at h
        | ok bytes =>
          simp only [he, ha, hc, hbytes] at h
          refine ⟨e, a, ch, bytes, rfl, rfl, hc, hbytes, ?_⟩
          cases hs : r.changeFactory.StringMapAppendApply
              (ResourceWithHistory.historyMod bytes ch.OpsDiff) r.resource with
          | error e4 => simp [hs] at h
          | ok x => simp [hs] at h; rw [h]


theorem historyMod_keys (bytes : String) (diff : OpsDiff) :
    ((ResourceWithHistory.historyMod bytes diff).KVs.map Prod.fst).Nodup := by
  simp only [ResourceWithHistory.historyMod, List.map]
  decide

theorem record_annotations (r : ResourceWithHistory Res) (bytes : String) (diff : OpsDiff)
    (resultRes : Res) (hread : AnnotationsReadBack r.changeFactory)
    (h : r.changeFactory.StringMapAppendApply
      (ResourceWithHistory.historyMod bytes diff) r.resource = .ok resultRes) :
    r.changeFactory.Annotations resultRes appliedResAnnKey = bytes ∧
    r.changeFactory.Annotations resultRes appliedResDiffAnnKey = diff.MinimalString ∧
    r.changeFactory.Annotations resultRes appliedResDiffMD5AnnKey = diff.MinimalMD5 ∧
    r.changeFactory.Annotations resultRes appliedResDiffFullAnnKey = diff.FullString := by
  have key := hread (ResourceWithHistory.historyMod bytes diff) r.resource resultRes rfl rfl
    (historyMod_keys bytes diff) h
  refine ⟨key (appliedResAnnKey, bytes) ?_, key (appliedResDiffAnnKey, diff.MinimalString) ?_,
    key (appliedResDiffMD5AnnKey, diff.MinimalMD5) ?_,
    key (appliedResDiffFullAnnKey, diff.FullString) ?_⟩ <;>
  simp [ResourceWithHistory.historyMod]


theorem getKV_setKV_self (k v : String) (m : List (String × String)) :
    getKV k (setKV k v m) = v := by
  induction m with
  | nil => simp [setKV, getKV]
  | cons p rest ih =>
    obtain ⟨k1, v1⟩ := p
    by_cases h : k1 = k <;> simp [setKV, getKV, h, ih]

theorem getKV_setKV_other (k k2 v : String) (m : List (String × String)) (hne : k ≠ k2) :
    getKV k2 (setKV k v m) = getKV k2 m := by
  induction m with
  | nil => simp [setKV, getKV, hne]
  | cons p rest ih =>
    obtain ⟨k1, v1⟩ := p
    by_cases h : k1 = k
    · subst h
      simp [setKV, getKV, hne]
    · by_cases h2 : k1 = k2
      · subst h2
        simp [setKV, getKV, h]
      · simp [setKV, getKV, h, h2, ih]

theorem getKV_foldl_keep (k : String) (kvs m : List (String × String))
    (hk : k ∉ kvs.map Prod.fst) :
    getKV k (kvs.foldl (fun m kv => setKV kv.1 kv.2 m) m) = getKV k m := by
  induction kvs generalizing m with
  | nil => rfl
  | cons p rest ih =>
    simp only [List.map_cons, List.mem_cons, not_or] at hk
    simp only [List.foldl_cons]
    rw [ih _ hk.2, getKV_setKV_other _ _ _ _ (Ne.symm hk.1)]

theorem getKV_foldl_read (kvs m : List (String × String)) (hnodup : (kvs.map Prod.fst).Nodup)
    (kv : String × String) (hmem : kv ∈ kvs) :
    getKV kv.1 (kvs.foldl (fun m kv => setKV kv.1 kv.2 m) m) = kv.2 := by
  induction kvs generalizing m with
  | nil => simp at hmem
  | cons p rest ih =>
    simp only [List.map_cons, List.nodup_cons] at hnodup
    simp only [List.foldl_cons]
    rcases List.mem_cons.mp hmem with h | h
    · subst h
      rw [getKV_foldl_keep _ _ _ hnodup.1, getKV_setKV_self]
    · exact ih _ hnodup.2 h

theorem sample_readBack : AnnotationsReadBack sampleCollaborators := by
  intro t r r1 hmatch hpath hnodup happ kv hmem
  simp only [sampleCollaborators, sampleStringMapAppendApply, hmatch, hpath, annotationsPath,
    if_true] at happ
  cases happ
  exact getKV_foldl_read _ _ hnodup kv hmem

theorem sample_appliesNew : ExactChangeAppliesNew sampleCollaborators := by
  intro x y ch h
  cases h
  rfl

theorem newExactHistorylessChange_ok (r : ResourceWithHistory Res) (x y : Res) (ch : Change Res)
    (h : r.newExactHistorylessChange x y = .ok ch) :
    ∃ x1 y1, resourceWithoutHistory r.changeFactory x = .ok x1 ∧
      resourceWithoutHistory r.changeFactory y = .ok y1 ∧
      r.changeFactory.NewExactChange x1 y1 = .ok ch := by
  unfold ResourceWithHistory.newExactHistorylessChange at h
  cases hx : resourceWithoutHistory r.changeFactory x with
  | error e => simp [hx] at h
  | ok x1 =>
    cases hy : resourceWithoutHistory r.changeFactory y with
    | error e => simp [hx, hy] at h
    | ok y1 =>
      simp only [hx, hy] at h
      exact ⟨x1, y1, rfl, rfl, h⟩

theorem lastAppliedChange_ok (r : ResourceWithHistory Res) (y : Res) (ch : Change Res)
    (h : r.lastAppliedChange y = .ok ch) :
    ∃ e y1, existingForLastApplied r r.resource = .ok e ∧
      resourceWithoutHistory r.changeFactory y = .ok y1 ∧
      r.changeFactory.NewExactChange e y1 = .ok ch := by
  rw [lastAppliedChange_eq] at h
  cases he : existingForLastApplied r r.resource with
  | error e => simp [he] at h
  | ok e =>
    cases hy : resourceWithoutHistory r.changeFactory y with
    | error e1 => simp [he, hy] at h
    | ok y1 =>
      simp only [he, hy] at h
      exact ⟨e, y1, rfl, rfl, h⟩

theorem lastApplied_of_failed (r : ResourceWithHistory Res) (R : Res)
    (hdec : r.changeFactory.NewResourceFromBytes
      (r.changeFactory.Annotations r.resource appliedResAnnKey) = .ok R)
    (hfail : (∃ e, r.newExactHistorylessChange r.resource R = .error e) ∨
      (∃ e, r.lastAppliedChange R = .error e)) :
    r.LastAppliedResource = none := by
  unfold ResourceWithHistory.LastAppliedResource ResourceWithHistory.recalculateLastAppliedChange
  simp only [hdec]
  split_ifs
  · rfl
  · rcases hfail with ⟨e, he⟩ | ⟨e, he⟩
    · simp only [he]; rfl
    · cases h1 : r.newExactHistorylessChange r.resource R with
      | error e1 => rfl
      | ok c1 => simp only [he]; rfl

theorem lastApplied_of_recorded (r : ResourceWithHistory Res)
    (appliedRes resultRes live a : Res)
    (hrec : r.RecordLastAppliedResource appliedRes = .ok resultRes)
    (ha : resourceWithoutHistory r.changeFactory appliedRes = .ok a)
    (hidem : resourceWithoutHistory r.changeFactory a = .ok a)
    (hread : AnnotationsReadBack r.changeFactory)
    (hnew : ExactChangeAppliesNew r.changeFactory)
    (htotal : ExactChangeTotal r.changeFactory)
    (hdigest : DigestNonEmpty r.changeFactory)
    (hcodec : DecodesBack r.changeFactory a)
    (hlorig : r.changeFactory.Annotations live appliedResAnnKey
      = r.changeFactory.Annotations resultRes appliedResAnnKey)
    (hlmd5 : r.changeFactory.Annotations live appliedResDiffMD5AnnKey
      = r.changeFactory.Annotations resultRes appliedResDiffMD5AnnKey)
    (hstrip : ∃ s, resourceWithoutHistory r.changeFactory live = .ok s)
    (hframe : existingForLastApplied r live = existingForLastApplied r r.resource) :
    (r.withResource live).LastAppliedResource = some a := by
  obtain ⟨e, a1, ch, bytes, he, ha1, hc, hbytes, happ⟩ := record_ok r appliedRes resultRes hrec
  rw [ha] at ha1
  cases ha1
  have happlied : ch.AppliedResource = a := hnew e a ch hc
  rw [happlied] at hbytes
  obtain ⟨hlen, hdec⟩ := hcodec bytes hbytes
  obtain ⟨horig, -, hmd5, -⟩ := record_annotations r bytes ch.OpsDiff resultRes hread happ
  rw [← hlorig] at horig
  rw [← hlmd5] at hmd5
  obtain ⟨s, hs⟩ := hstrip
  obtain ⟨c1, hc1⟩ := htotal s a
  have h1 : (r.withResource live).newExactHistorylessChange live a = .ok c1 := by
    simp only [ResourceWithHistory.newExactHistorylessChange, ResourceWithHistory.withResource,
      NewResourceWithHistory, hs, hidem, hc1]
  have h2 : (r.withResource live).lastAppliedChange a = .ok ch := by
    rw [lastAppliedChange_eq]
    have : existingForLastApplied (r.withResource live) (r.withResource live).resource
        = .ok e := by
      rw [← he, ← hframe]; rfl
    simp only [this]
    simp only [ResourceWithHistory.withResource, NewResourceWithHistory, hidem, hc]
  have key := lastApplied_of_recomputed (r.withResource live) a c1 ch
    (by simpa [ResourceWithHistory.withResource, NewResourceWithHistory, horig] using hlen)
    (by simpa [ResourceWithHistory.withResource, NewResourceWithHistory, hmd5]
      using hdigest e a ch hc)
    (by simpa [ResourceWithHistory.withResource, NewResourceWithHistory, horig] using hdec)
    h1 h2
  rw [key]
  have hm : (r.withResource live).changeFactory.Annotations
      (r.withResource live).resource appliedResDiffMD5AnnKey = ch.OpsDiff.MinimalMD5 := hmd5
  rw [hm, hnew s a c1 hc1, happlied]
  simp

theorem lastApplied_eq (r : ResourceWithHistory Res) :
    r.LastAppliedResource =
      if (r.changeFactory.Annotations r.resource appliedResAnnKey).length = 0 ∨
          (r.changeFactory.Annotations r.resource appliedResDiffMD5AnnKey).length = 0 then none
      else
        match r.changeFactory.NewResourceFromBytes
            (r.changeFactory.Annotations r.resource appliedResAnnKey) with
        | .error _ => none
        | .ok R =>
          match resourceWithoutHistory r.changeFactory r.resource with
          | .error _ => none
          | .ok x1 =>
            match resourceWithoutHistory r.changeFactory R with
            | .error _ => none
            | .ok y1 =>
              match r.changeFactory.NewExactChange x1 y1 with
              | .error _ => none
              | .ok c1 =>
                match existingForLastApplied r r.resource with
                | .error _ => none
                | .ok e =>
                  match r.changeFactory.NewExactChange e y1 with
                  | .error _ => none
                  | .ok c2 =>
                    ResourceWithHistory.firstMatching
                      (r.changeFactory.Annotations r.resource appliedResDiffMD5AnnKey) [c1, c2] := by
  unfold ResourceWithHistory.LastAppliedResource ResourceWithHistory.recalculateLastAppliedChange
  simp only [lastAppliedChange_eq, ResourceWithHistory.newExactHistorylessChange]
  split_ifs with h
  · rfl
  · cases r.changeFactory.NewResourceFromBytes
        (r.changeFactory.Annotations r.resource appliedResAnnKey) with
    | error _ => rfl
    | ok R =>
      simp only
      cases resourceWithoutHistory r.changeFactory r.resource with
      | error _ => rfl
      | ok x1 =>
        simp only
        cases resourceWithoutHistory r.changeFactory R with
        | error _ => rfl
        | ok y1 =>
          simp only
          cases r.changeFactory.NewExactChange x1 y1 with
          | error _ => rfl
          | ok c1 =>
            simp only
            cases existingForLastApplied r r.resource with
            | error _ => rfl
            | ok e =>
              simp only
              cases r.changeFactory.NewExactChange e y1 <;> rfl

end HistoryLemmas

section Claims2
variable {Res : Type}

/-- C2 (as amended): for a resource with a decodable `original` snapshot `R` and
a non-empty `original-diff-md5`: when both recomputations succeed, the result
is not nil exactly when the stored digest is the digest of one of the two
recomputed exact diffs, and a non-nil result is `R` without history
annotations whichever matched; when one of the two recomputations fails the
result is nil. -/
theorem lastApplied_tamper_check (r : ResourceWithHistory Res) (R : Res)
    (hb : (r.changeFactory.Annotations r.resource appliedResAnnKey).length ≠ 0)
    (hm : (r.changeFactory.Annotations r.resource appliedResDiffMD5AnnKey).length ≠ 0)
    (hdec : r.changeFactory.NewResourceFromBytes
      (r.changeFactory.Annotations r.resource appliedResAnnKey) = .ok R) :
    (∀ c1 c2, r.newExactHistorylessChange r.resource R = .ok c1 →
      r.lastAppliedChange R = .ok c2 →
      ((r.LastAppliedResource ≠ none ↔
          (r.changeFactory.Annotations r.resource appliedResDiffMD5AnnKey
              = c1.OpsDiff.MinimalMD5 ∨
           r.changeFactory.Annotations r.resource appliedResDiffMD5AnnKey
              = c2.OpsDiff.MinimalMD5)) ∧
       (ExactChangeAppliesNew r.changeFactory → ∀ x, r.LastAppliedResource = some x →
          resourceWithoutHistory r.changeFactory R = .ok x))) ∧
    (((∃ e, r.newExactHistorylessChange r.resource R = .error e) ∨
      (∃ e, r.lastAppliedChange R = .error e)) → r.LastAppliedResource = none) := by
  refine ⟨?_, lastApplied_of_failed r R hdec⟩
  intro c1 c2 h1 h2
  have key := lastApplied_of_recomputed r R c1 c2 hb hm hdec h1 h2
  constructor
  · rw [key]
    split_ifs with ha hb2
    · simp [ha]
    · simp [hb2]
    · simp only [ne_eq, not_true_eq_false, false_iff, not_or]
      exact ⟨fun h => ha h.symm, fun h => hb2 h.symm⟩
  · intro hnew x hx
    obtain ⟨x1, y1, -, hy1, hc1⟩ := newExactHistorylessChange_ok r _ _ _ h1
    obtain ⟨e, y2, -, hy2, hc2⟩ := lastAppliedChange_ok r _ _ h2
    rw [hy1] at hy2
    cases hy2
    rw [key] at hx
    rw [hy1]
    split_ifs at hx with ha hb2
    · cases hx
      rw [hnew _ _ _ hc1]
    · cases hx
      rw [hnew _ _ _ hc2]

/-- C2, counterexample: the stored digest is the digest of the exact diff without
exclusions, but removing the excluded field fails and the result is nil. -/
theorem tamper_check_nil_on_failed_recomputation :
    sampleCollaborators.NewResourceFromBytes
      (sampleCollaborators.Annotations recordedSpecV2 appliedResAnnKey) = .ok appliedSpecV2 ∧
    (sampleCollaborators.Annotations recordedSpecV2 appliedResDiffMD5AnnKey).length ≠ 0 ∧
    (∃ c1, (sampleWithHistory recordedSpecV2 [nestedExclusion]).newExactHistorylessChange
        recordedSpecV2 appliedSpecV2 = .ok c1 ∧
      c1.OpsDiff.MinimalMD5
        = sampleCollaborators.Annotations recordedSpecV2 appliedResDiffMD5AnnKey) ∧
    (sampleWithHistory recordedSpecV2 [nestedExclusion]).LastAppliedResource = none :=
  ⟨rfl, by decide, ⟨_, rfl, rfl⟩, rfl⟩

/-- C2, witness: the recorded resource with and without a failing exclusion. -/
theorem lastApplied_tamper_check_witness :
    (sampleWithHistory recordedSpecV2 []).LastAppliedResource ≠ none ∧
    ((sampleWithHistory recordedSpecV2 [nestedExclusion]).LastAppliedResource = none) := by
  have h := lastApplied_tamper_check (sampleWithHistory recordedSpecV2 []) appliedSpecV2
    (by decide) (by decide) rfl
  have h2 := lastApplied_tamper_check (sampleWithHistory recordedSpecV2 [nestedExclusion])
    appliedSpecV2 (by decide) (by decide) rfl
  exact ⟨((h.1 _ _ rfl rfl).1).mpr (Or.inl rfl), h2.2 (Or.inr ⟨_, rfl⟩)⟩

end Claims2


section Claims4
variable {Res : Type}

/-- C6 (as amended): on success the result carries the four history
annotations; `original` is the compact serialization of the applied resource
without its history annotations, and `original-diff`, `original-diff-md5` and
`original-diff-full` are the minimal string, the digest and the full string of
one and the same ops diff: the exact diff between the live resource without
the excluded fields and without history, and the applied resource without
history.  So the digest in the result comes from the snapshot in the result. -/
theorem record_postcondition (r : ResourceWithHistory Res) (appliedRes resultRes : Res)
    (hrec : r.RecordLastAppliedResource appliedRes = .ok resultRes)
    (hread : AnnotationsReadBack r.changeFactory)
    (hnew : ExactChangeAppliesNew r.changeFactory) :
    ∃ e a ch bytes,
      existingForLastApplied r r.resource = .ok e ∧
      resourceWithoutHistory r.changeFactory appliedRes = .ok a ∧
      r.changeFactory.NewExactChange e a = .ok ch ∧
      r.changeFactory.AsCompactBytes a = .ok bytes ∧
      r.changeFactory.Annotations resultRes appliedResAnnKey = bytes ∧
      r.changeFactory.Annotations resultRes appliedResDiffAnnKey = ch.OpsDiff.MinimalString ∧
      r.changeFactory.Annotations resultRes appliedResDiffMD5AnnKey = ch.OpsDiff.MinimalMD5 ∧
      r.changeFactory.Annotations resultRes appliedResDiffFullAnnKey = ch.OpsDiff.FullString := by
  obtain ⟨e, a, ch, bytes, he, ha, hc, hbytes, happ⟩ := record_ok r appliedRes resultRes hrec
  rw [hnew e a ch hc] at hbytes
  exact ⟨e, a, ch, bytes, he, ha, hc, hbytes,
    record_annotations r bytes ch.OpsDiff resultRes hread happ⟩

/-- C6, witness: recording on `liveWithStatus` with `status` excluded. -/
theorem record_postcondition_witness :
    ∃ e a ch bytes,
      existingForLastApplied (sampleWithHistory liveWithStatus [statusExclusion]) liveWithStatus
        = .ok e ∧
      resourceWithoutHistory sampleCollaborators appliedWithStaleHistory = .ok a ∧
      sampleCollaborators.NewExactChange e a = .ok ch ∧
      sampleCollaborators.AsCompactBytes a = .ok bytes ∧
      sampleCollaborators.Annotations recordedWithStatus appliedResAnnKey = bytes ∧
      sampleCollaborators.Annotations recordedWithStatus appliedResDiffAnnKey
        = ch.OpsDiff.MinimalString ∧
      sampleCollaborators.Annotations recordedWithStatus appliedResDiffMD5AnnKey
        = ch.OpsDiff.MinimalMD5 ∧
      sampleCollaborators.Annotations recordedWithStatus appliedResDiffFullAnnKey
        = ch.OpsDiff.FullString :=
  record_postcondition (sampleWithHistory liveWithStatus [statusExclusion])
    appliedWithStaleHistory recordedWithStatus rfl sample_readBack sample_appliesNew

/-- C6, counterexample: with `status` excluded and an applied resource that
carries a stale history annotation, `original` is not the compact form of the
applied resource, and the stored digest is not the one of the exact diff
between the live resource without history and the applied resource without
history. -/
theorem original_is_not_applied_form :
    (sampleWithHistory liveWithStatus [statusExclusion]).RecordLastAppliedResource
      appliedWithStaleHistory = .ok recordedWithStatus ∧
    sampleCollaborators.AsCompactBytes appliedWithStaleHistory
      = .ok "res;a:kapp.k14s.io/original-diff=stale;f:spec=v2;" ∧
    sampleCollaborators.Annotations recordedWithStatus appliedResAnnKey = "res;f:spec=v2;" ∧
    (∃ e a ch, resourceWithoutHistory sampleCollaborators liveWithStatus = .ok e ∧
      resourceWithoutHistory sampleCollaborators appliedWithStaleHistory = .ok a ∧
      sampleCollaborators.NewExactChange e a = .ok ch ∧
      ch.OpsDiff.MinimalMD5
        ≠ sampleCollaborators.Annotations recordedWithStatus appliedResDiffMD5AnnKey) :=
  ⟨rfl, rfl, rfl, _, _, _, rfl, rfl, rfl, by decide⟩

/-- C8 (as amended): `RecordLastAppliedResource` has no size check.  When the
change, the serialization and the annotation write succeed, it succeeds with
the resource on which all four annotations were written, whatever their
size; and when it fails, the error is the one of the change computation, of
the serialization or of the annotation write. -/
theorem record_has_no_size_check (r : ResourceWithHistory Res) (appliedRes : Res) :
    (∀ ch bytes resultRes,
      r.lastAppliedChange appliedRes = .ok ch →
      r.changeFactory.AsCompactBytes ch.AppliedResource = .ok bytes →
      r.changeFactory.StringMapAppendApply
        (ResourceWithHistory.historyMod bytes ch.OpsDiff) r.resource = .ok resultRes →
      r.RecordLastAppliedResource appliedRes = .ok resultRes ∧
      (ResourceWithHistory.historyMod bytes ch.OpsDiff).KVs.map Prod.fst
        = [appliedResAnnKey, appliedResDiffAnnKey, appliedResDiffMD5AnnKey,
           appliedResDiffFullAnnKey]) ∧
    (∀ err, r.RecordLastAppliedResource appliedRes = .error err →
      r.lastAppliedChange appliedRes = .error err ∨
      ∃ ch, r.lastAppliedChange appliedRes = .ok ch ∧
        (r.changeFactory.AsCompactBytes ch.AppliedResource = .error err ∨
         ∃ bytes, r.changeFactory.AsCompactBytes ch.AppliedResource = .ok bytes ∧
           r.changeFactory.StringMapAppendApply
             (ResourceWithHistory.historyMod bytes ch.OpsDiff) r.resource = .error err)) := by
  constructor
  · intro ch bytes resultRes hch hbytes happ
    refine ⟨?_, rfl⟩
    simp only [ResourceWithHistory.RecordLastAppliedResource, hch, hbytes, happ]
  · intro err h
    unfold ResourceWithHistory.RecordLastAppliedResource at h
    cases hch : r.lastAppliedChange appliedRes with
    | error e => simp only [hch] at h; left; cases h; rfl
    | ok ch =>
      right
      refine ⟨ch, rfl, ?_⟩
      cases hbytes : r.changeFactory.AsCompactBytes ch.AppliedResource with
      | error e => simp only [hch, hbytes] at h; left; cases h; rfl
      | ok bytes =>
        right
        refine ⟨bytes, rfl, ?_⟩
        cases happ : r.changeFactory.StringMapAppendApply
            (ResourceWithHistory.historyMod bytes ch.OpsDiff) r.resource with
        | error e => simp only [hch, hbytes, happ] at h; exact h
        | ok x => simp [hch, hbytes, happ] at h

/-- C8, witness: recording an applied resource larger than the budget. -/
theorem record_has_no_size_check_witness :
    (sampleWithHistory liveSpecV1 []).RecordLastAppliedResource bigApplied = .ok recordedBig :=
  ((record_has_no_size_check (sampleWithHistory liveSpecV1 []) bigApplied).1
    _ _ recordedBig rfl rfl rfl).1

/-- C8, counterexample: a recording succeeds although `original` alone is longer
than the budget, and `original-diff` and `original-diff-full` are still
written. -/
theorem record_exceeds_budget :
    (sampleWithHistory liveSpecV1 []).RecordLastAppliedResource bigApplied = .ok recordedBig ∧
    annotationBudget
      < (sampleCollaborators.Annotations recordedBig appliedResAnnKey).length ∧
    (sampleCollaborators.Annotations recordedBig appliedResDiffAnnKey).length ≠ 0 ∧
    (sampleCollaborators.Annotations recordedBig appliedResDiffFullAnnKey).length ≠ 0 := by
  have hbig : bigValue.length = 262144 := by
    simp only [bigValue, String.length, List.length_replicate]
  have hres : "res;".length = 4 := by decide
  have hfull : "full ".length = 5 := by decide
  have h1 : sampleCollaborators.Annotations recordedBig appliedResAnnKey
      = sampleRender bigApplied := rfl
  have h2 : sampleCollaborators.Annotations recordedBig appliedResDiffAnnKey
      = (sampleOpsDiff liveSpecV1 bigApplied).MinimalString := rfl
  have h3 : sampleCollaborators.Annotations recordedBig appliedResDiffFullAnnKey
      = (sampleOpsDiff liveSpecV1 bigApplied).FullString := rfl
  rw [h1, h2, h3]
  refine ⟨rfl, ?_, ?_, ?_⟩
  · simp only [sampleRender, renderKVs, bigApplied, String.length_append, annotationBudget,
      hbig, hres]
    omega
  · simp only [sampleOpsDiff, sampleRender, String.length_append, hres]
    omega
  · simp only [sampleOpsDiff, sampleRender, String.length_append, hres, hfull]
    omega

end Claims4


section Claims5
variable {Res : Type}

/-- C10: `LastAppliedResource` is nil when the `original` annotation is absent or
empty, when the `original-diff-md5` annotation is absent or empty, and when
`original` does not decode; and two resources that carry the same `original`
and `original-diff-md5` and are the same once history is removed (they differ
in `original-diff` and `original-diff-full` at most) give the same result. -/
theorem lastApplied_nil_cases (r : ResourceWithHistory Res) :
    ((r.changeFactory.Annotations r.resource appliedResAnnKey).length = 0 →
      r.LastAppliedResource = none) ∧
    ((r.changeFactory.Annotations r.resource appliedResDiffMD5AnnKey).length = 0 →
      r.LastAppliedResource = none) ∧
    ((∃ err, r.changeFactory.NewResourceFromBytes
        (r.changeFactory.Annotations r.resource appliedResAnnKey) = .error err) →
      r.LastAppliedResource = none) ∧
    (∀ other : Res,
      r.changeFactory.Annotations other appliedResAnnKey
        = r.changeFactory.Annotations r.resource appliedResAnnKey →
      r.changeFactory.Annotations other appliedResDiffMD5AnnKey
        = r.changeFactory.Annotations r.resource appliedResDiffMD5AnnKey →
      resourceWithoutHistory r.changeFactory other
        = resourceWithoutHistory r.changeFactory r.resource →
      existingForLastApplied r other = existingForLastApplied r r.resource →
      (r.withResource other).LastAppliedResource = r.LastAppliedResource) := by
  refine ⟨?_, ?_, ?_, ?_⟩
  · intro h
    simp [ResourceWithHistory.LastAppliedResource,
      ResourceWithHistory.recalculateLastAppliedChange, h, ResourceWithHistory.firstMatching]
  · intro h
    simp [ResourceWithHistory.LastAppliedResource,
      ResourceWithHistory.recalculateLastAppliedChange, h, ResourceWithHistory.firstMatching]
  · rintro ⟨err, h⟩
    unfold ResourceWithHistory.LastAppliedResource
      ResourceWithHistory.recalculateLastAppliedChange
    simp only [h]
    split_ifs <;> rfl
  · intro other horig hmd5 hstrip hexcl
    have hexcl2 : existingForLastApplied (r.withResource other) other
        = existingForLastApplied r r.resource := hexcl
    rw [lastApplied_eq, lastApplied_eq]
    simp only [ResourceWithHistory.withResource, NewResourceWithHistory] at hexcl2 ⊢
    simp only [horig, hmd5, hstrip, hexcl2]

/-- C10, witness: no annotations, no digest, an undecodable snapshot, and an
edited `original-diff-full`. -/
theorem lastApplied_nil_cases_witness :
    (sampleWithHistory liveSpecV1 []).LastAppliedResource = none ∧
    (sampleWithHistory
      { recordedSpecV2 with annotations := [(appliedResAnnKey, "res;f:spec=v2;")] }
      []).LastAppliedResource = none ∧
    (sampleWithHistory
      { recordedSpecV2 with annotations :=
          [(appliedResAnnKey, "not a resource"), (appliedResDiffMD5AnnKey, "md5()")] }
      []).LastAppliedResource = none ∧
    ((sampleWithHistory recordedSpecV2 []).withResource
      { recordedSpecV2 with annotations :=
          [ (appliedResAnnKey, "res;f:spec=v2;"),
            (appliedResDiffMD5AnnKey, "md5(res;f:spec=v1; => res;f:spec=v2;)"),
            (appliedResDiffFullAnnKey, "edited") ] }).LastAppliedResource
      = (sampleWithHistory recordedSpecV2 []).LastAppliedResource :=
  ⟨(lastApplied_nil_cases (sampleWithHistory liveSpecV1 [])).1 (by decide),
   (lastApplied_nil_cases _).2.1 (by decide),
   (lastApplied_nil_cases _).2.2.1 ⟨_, rfl⟩,
   (lastApplied_nil_cases (sampleWithHistory recordedSpecV2 [])).2.2.2 _ rfl rfl rfl rfl⟩

end Claims5


section Deploy
variable {Res Chg CC Gr : Type}

theorem RunFromChangeSet_newResources (o : DeployOptions) (w : DeployWorld Res Chg CC Gr)
    (resourceFilter : List Res → List Res) (pre : List (Call × Bool))
    (newResources existingResources : List Res) :
    (RunFromChangeSet o w resourceFilter pre newResources existingResources).newResources
      = some newResources := by
  unfold RunFromChangeSet
  dsimp only
  repeat' split
  all_goals rfl

theorem RunFromChangeSet_apply (o : DeployOptions) (w : DeployWorld Res Chg CC Gr)
    (resourceFilter : List Res → List Res) (pre : List (Call × Bool))
    (newResources existingResources : List Res) (b : Bool)
    (hpre : (Call.ClusterChangeSetApply, b) ∉ pre)
    (h : (Call.ClusterChangeSetApply, b) ∈
      (RunFromChangeSet o w resourceFilter pre newResources existingResources).calls) :
    ∃ l1 l3 l4,
      (RunFromChangeSet o w resourceFilter pre newResources existingResources).calls
        = l1 ++ (Call.ChangeSetViewPrint, true) :: (Call.ValidateResources, true) ::
            (Call.AskForConfirmation, true) :: l3 ++ (Call.ClusterChangeSetApply, b) :: l4 := by
  revert h
  unfold RunFromChangeSet TouchDo deferredGC
  dsimp only
  repeat' split
  all_goals intro h
  all_goals first
    | (simp [RunResult.returning, hpre] at h; done)
    | (simp [RunResult.returning, hpre] at h
       subst h
       first
        | (refine ⟨pre ++ [(Call.ChangeSetCalculate, true), (Call.ClusterChangeSetCalculate, true)],
            [(Call.TouchDo, true)], [(Call.AppGCChanges, true)], ?_⟩
           simp [RunResult.returning]
           done)
        | (refine ⟨pre ++ [(Call.ChangeSetCalculate, true), (Call.ClusterChangeSetCalculate, true)],
            [(Call.showLogs, true), (Call.TouchDo, true)], [(Call.AppGCChanges, true)], ?_⟩
           simp [RunResult.returning]
           done)
        | (refine ⟨pre ++ [(Call.ChangeSetCalculate, true), (Call.ClusterChangeSetCalculate, true)],
            [(Call.TouchDo, true)],
            [(Call.AppGCChanges, true), (Call.PrintDeletedAppChanges, true)], ?_⟩
           simp [RunResult.returning]
           done)
        | (refine ⟨pre ++ [(Call.ChangeSetCalculate, true), (Call.ClusterChangeSetCalculate, true)],
            [(Call.showLogs, true), (Call.TouchDo, true)],
            [(Call.AppGCChanges, true), (Call.PrintDeletedAppChanges, true)], ?_⟩
           simp [RunResult.returning]))

theorem RunFromChangeSet_gate (o : DeployOptions) (w : DeployWorld Res Chg CC Gr)
    (resourceFilter : List Res → List Res) (pre : List (Call × Bool))
    (newResources existingResources : List Res)
    (hpre : ∀ b, (Call.AskForConfirmation, b) ∉ pre ∧ (Call.ClusterChangeSetApply, b) ∉ pre ∧
      (Call.ValidateResources, b) ∉ pre)
    (h : o.DiffRun = true ∨
      (RunFromChangeSet o w resourceFilter pre newResources existingResources).clusterChanges
        = some []) :
    (∀ b, (Call.AskForConfirmation, b) ∉
        (RunFromChangeSet o w resourceFilter pre newResources existingResources).calls ∧
      (Call.ClusterChangeSetApply, b) ∉
        (RunFromChangeSet o w resourceFilter pre newResources existingResources).calls) ∧
    ((Call.ValidateResources, true) ∈
        (RunFromChangeSet o w resourceFilter pre newResources existingResources).calls →
      (RunFromChangeSet o w resourceFilter pre newResources existingResources).err = none) := by
  revert h
  unfold RunFromChangeSet TouchDo deferredGC
  dsimp only
  repeat' split
  all_goals intro h
  all_goals simp_all [RunResult.returning]

theorem RunFromChangeSet_refusedEmpty (o : DeployOptions) (w : DeployWorld Res Chg CC Gr)
    (resourceFilter : List Res → List Res) (pre : List (Call × Bool))
    (newResources existingResources : List Res) :
    (RunFromChangeSet o w resourceFilter pre newResources existingResources).refusedEmpty
      = false := by
  unfold RunFromChangeSet
  dsimp only
  repeat' split
  all_goals rfl

/-- C4 (as amended): in a run in which the desired list is empty after
filtering, allow-empty is not set and patch is not set, no change set is
computed, previewed or applied; and once the existing resources were listed
without error, `Run` returns the empty-set error. -/
theorem run_refuses_empty (o : DeployOptions) (w : DeployWorld Res Chg CC Gr)
    (hempty : (Run o w).newResources = some [])
    (hallow : o.AllowEmpty = false) (hpatch : o.Patch = false) :
    ((Call.AllAndMatching, true) ∈ (Run o w).calls →
      (Run o w).err = some emptySetError ∧ (Run o w).refusedEmpty = true) ∧
    (∀ b, (Call.ChangeSetCalculate, b) ∉ (Run o w).calls ∧
      (Call.ClusterChangeSetCalculate, b) ∉ (Run o w).calls ∧
      (Call.ChangeSetViewPrint, b) ∉ (Run o w).calls ∧
      (Call.ClusterChangeSetApply, b) ∉ (Run o w).calls) := by
  revert hempty
  unfold Run RunFromFilter
  simp only [hpatch, hallow]
  repeat' split
  all_goals simp_all [RunResult.returning, RunFromChangeSet_newResources]

/-- C4, witness: an empty desired set without flags. -/
theorem run_refuses_empty_witness :
    (Run ⟨false, false, false, false⟩ (calmWorld [])).err = some emptySetError ∧
    (Run ⟨false, false, false, false⟩ (calmWorld [])).refusedEmpty = true :=
  (run_refuses_empty ⟨false, false, false, false⟩ (calmWorld []) rfl rfl rfl).1 (by decide)

/-- C4, counterexample: with the patch flag an empty desired set is not refused;
the change set is computed and previewed and `Run` returns nil. -/
theorem run_patch_accepts_empty :
    (Run ⟨true, false, false, false⟩ (calmWorld [])).newResources = some [] ∧
    (Run ⟨true, false, false, false⟩ (calmWorld [])).err = none ∧
    (Call.ChangeSetCalculate, true) ∈ (Run ⟨true, false, false, false⟩ (calmWorld [])).calls ∧
    (Call.ChangeSetViewPrint, true) ∈ (Run ⟨true, false, false, false⟩ (calmWorld [])).calls :=
  ⟨rfl, rfl, by decide, by decide⟩

/-- C7 (as amended): a run that ends at the empty-set refusal has made exactly
the calls up to the listing of the existing resources, each without error.
Among them `app.CreateOrUpdate`, which writes the application record, is the
only call that writes to the cluster: no resource was created, updated or
deleted, no app change was recorded or collected. -/
theorem run_refusal_calls (o : DeployOptions) (w : DeployWorld Res Chg CC Gr)
    (hrefused : (Run o w).refusedEmpty = true) :
    (Run o w).calls
      = callsBeforeFilter ++ [(Call.ResourceFilter, true), (Call.AllAndMatching, true)] ∧
    (∀ c b, (c, b) ∈ (Run o w).calls → c.isMutating = true → c = Call.AppCreateOrUpdate) ∧
    (Call.AppCreateOrUpdate, true) ∈ (Run o w).calls := by
  revert hrefused
  unfold Run RunFromFilter
  dsimp only
  repeat' split
  all_goals simp_all [RunResult.returning, RunFromChangeSet_refusedEmpty, callsBeforeFilter,
    Call.isMutating]

/-- C7, witness: the refused run of an empty desired set. -/
theorem run_refusal_calls_witness :
    (Call.AppCreateOrUpdate, true) ∈ (Run ⟨false, false, false, false⟩ (calmWorld [])).calls :=
  (run_refusal_calls ⟨false, false, false, false⟩ (calmWorld []) rfl).2.2

/-- C7, counterexample: the refused run has called `app.CreateOrUpdate`, which
writes the application record. -/
theorem run_refusal_touches_app_record :
    (Run ⟨false, false, false, false⟩ (calmWorld [])).refusedEmpty = true ∧
    (Run ⟨false, false, false, false⟩ (calmWorld [])).err = some emptySetError ∧
    (Call.AppCreateOrUpdate, true) ∈ (Run ⟨false, false, false, false⟩ (calmWorld [])).calls ∧
    Call.AppCreateOrUpdate.isMutating = true :=
  ⟨rfl, rfl, by decide, rfl⟩

/-- C9 (as amended): in every run in which `clusterChangeSet.Apply` is called,
the change-set preview was printed before, then resource validation passed,
then `ui.AskForConfirmation` returned without error, all before the apply.
When the diff-run flag is set or the computed list of cluster changes is
empty, `Run` neither prompts nor applies, and it returns nil once resource
validation has passed. -/
theorem run_gates_apply (o : DeployOptions) (w : DeployWorld Res Chg CC Gr) :
    (∀ b, (Call.ClusterChangeSetApply, b) ∈ (Run o w).calls →
      ∃ l1 l3 l4, (Run o w).calls
        = l1 ++ (Call.ChangeSetViewPrint, true) :: (Call.ValidateResources, true) ::
            (Call.AskForConfirmation, true) :: l3 ++ (Call.ClusterChangeSetApply, b) :: l4) ∧
    ((o.DiffRun = true ∨ (Run o w).clusterChanges = some []) →
      (∀ b, (Call.AskForConfirmation, b) ∉ (Run o w).calls ∧
        (Call.ClusterChangeSetApply, b) ∉ (Run o w).calls) ∧
      ((Call.ValidateResources, true) ∈ (Run o w).calls → (Run o w).err = none)) := by
  constructor
  · intro b
    unfold Run RunFromFilter
    dsimp only
    repeat' split
    all_goals first
      | (intro h; simp [RunResult.returning] at h; done)
      | (refine RunFromChangeSet_apply _ _ _ _ _ _ _ ?_; simp)
  · unfold Run RunFromFilter
    dsimp only
    repeat' split
    all_goals first
      | (intro h; simp_all [RunResult.returning]; done)
      | (refine RunFromChangeSet_gate _ _ _ _ _ _ ?_; simp)

/-- C9, witness: a run that applies one change, and a diff run. -/
theorem run_gates_apply_witness :
    (∃ l1 l3 l4, (Run ⟨false, false, false, true⟩ (calmWorld [7])).calls
      = l1 ++ (Call.ChangeSetViewPrint, true) :: (Call.ValidateResources, true) ::
          (Call.AskForConfirmation, true) :: l3 ++ (Call.ClusterChangeSetApply, true) :: l4) ∧
    (Run ⟨false, false, true, false⟩ (calmWorld [7])).err = none :=
  ⟨(run_gates_apply ⟨false, false, false, true⟩ (calmWorld [7])).1 true (by decide),
   ((run_gates_apply ⟨false, false, true, false⟩ (calmWorld [7])).2 (Or.inl rfl)).2
     (by decide)⟩

/-- C9, counterexample: with the diff-run flag set, and also with an empty list of
cluster changes, `Run` returns the error of resource validation, not nil. -/
theorem run_diff_run_returns_error :
    (Run ⟨false, false, true, false⟩ (invalidWorld [7])).err = some "validation failed" ∧
    (Run ⟨false, true, false, false⟩ (invalidWorld [])).clusterChanges = some [] ∧
    (Run ⟨false, true, false, false⟩ (invalidWorld [])).err = some "validation failed" :=
  ⟨rfl, rfl, rfl⟩

end Deploy


section Retry
variable {Res : Type}

theorem contains_description (reason : String) :
    Contains (resourceConflictError reason) resourceConflictDescription := by
  refine ⟨[], (": " ++ reason).data, ?_⟩
  simp [resourceConflictError, String.data_append]

theorem contains_reason (reason : String) :
    Contains (resourceConflictError reason) reason := by
  refine ⟨(resourceConflictDescription ++ ": ").data, [], ?_⟩
  simp [resourceConflictError, String.data_append]

/-- C3: whenever an update of the approved change hits a conflict, on whichever
attempt, the change is recomputed against the live resource just read, with
the same desired resource and the same change factory.  If the digest of the
recomputed ops diff is the approved digest the update is retried with the
recomputed change, and succeeds when the cluster accepts it; otherwise the
update fails with the error that contains both the conflict description and
the reason the cluster gave. -/
theorem retry_on_conflict (NewChange : Res → Res → Except Err (Change Res))
    (cluster : ClusterClient Res) (approvedMD5 : String) (desired payload fresh : Res)
    (recomputed : Change Res) (reason : String) (attempts n : Nat)
    (hconflict : cluster.Update n payload = .conflict reason)
    (hget : cluster.Get n = .ok fresh)
    (hnew : NewChange fresh desired = .ok recomputed) :
    (recomputed.OpsDiff.MinimalMD5 = approvedMD5 →
      updateWithRetry NewChange cluster approvedMD5 desired (attempts + 1) n payload
        = updateWithRetry NewChange cluster approvedMD5 desired attempts (n + 1)
            recomputed.AppliedResource ∧
      ∀ res, cluster.Update (n + 1) recomputed.AppliedResource = .saved res →
        updateWithRetry NewChange cluster approvedMD5 desired (attempts + 2) n payload
          = .ok res) ∧
    (recomputed.OpsDiff.MinimalMD5 ≠ approvedMD5 →
      updateWithRetry NewChange cluster approvedMD5 desired (attempts + 1) n payload
        = .error (resourceConflictError reason) ∧
      Contains (resourceConflictError reason) resourceConflictDescription ∧
      Contains (resourceConflictError reason) reason) := by
  constructor
  · intro hsame
    constructor
    · simp only [updateWithRetry, hconflict, hget, hnew, hsame, if_true]
    · intro res hsaved
      simp only [updateWithRetry, hconflict, hget, hnew, hsame, if_true, hsaved]
  · intro hdiff
    refine ⟨?_, contains_description reason, contains_reason reason⟩
    simp only [updateWithRetry, hconflict, hget, hnew, hdiff, if_false]

/-- C3, witness: one conflict after which the diff is unchanged and the retry is
accepted; and two conflicts, the diff unchanged after the first and changed
after the second. -/
theorem retry_on_conflict_witness :
    updateWithRetry unaryChange (conflictOnce 3) "++" 5 2 0 5 = .ok 5 ∧
    updateWithRetry unaryChange (conflictTwice 3 4) "++" 5 3 0 5
      = updateWithRetry unaryChange (conflictTwice 3 4) "++" 5 2 1 5 ∧
    updateWithRetry unaryChange (conflictTwice 3 4) "++" 5 2 1 5
      = .error (resourceConflictError "reason: Conflict again") :=
  ⟨((retry_on_conflict unaryChange (conflictOnce 3) "++" 5 5 3 ⟨5, "++", "++", ""⟩
      "reason: Conflict" 0 0 rfl rfl rfl).1 rfl).2 5 rfl,
   ((retry_on_conflict unaryChange (conflictTwice 3 4) "++" 5 5 3 ⟨5, "++", "++", ""⟩
      "reason: Conflict" 2 0 rfl rfl rfl).1 rfl).1,
   ((retry_on_conflict unaryChange (conflictTwice 3 4) "++" 5 5 4 ⟨5, "+", "+", ""⟩
      "reason: Conflict again" 1 1 rfl rfl rfl).2 (by decide)).1⟩

end Retry


section NsNames
variable {Res : Type}

theorem nsNamesLoop_spec (Namespace : Res → String) (resources : List Res)
    (uniqNames names : List String)
    (hsame : ∀ s, s ∈ uniqNames ↔ s ∈ names) (hnodup : names.Nodup) :
    (nsNamesLoop Namespace resources (uniqNames, names)).2.Nodup ∧
    ∀ s, s ∈ (nsNamesLoop Namespace resources (uniqNames, names)).2 ↔
      s ∈ names ∨ ∃ res ∈ resources, s = nsNameOf Namespace res := by
  induction resources generalizing uniqNames names with
  | nil => simp [nsNamesLoop, hnodup]
  | cons res rest ih =>
    simp only [nsNamesLoop]
    split_ifs with hfound
    · obtain ⟨h1, h2⟩ := ih uniqNames names hsame hnodup
      refine ⟨h1, fun s => ?_⟩
      rw [h2 s]
      constructor
      · rintro (h | ⟨x, hx, rfl⟩)
        · exact Or.inl h
        · exact Or.inr ⟨x, List.mem_cons_of_mem _ hx, rfl⟩
      · rintro (h | ⟨x, hx, rfl⟩)
        · exact Or.inl h
        · rcases List.mem_cons.mp hx with rfl | hx
          · exact Or.inl ((hsame _).mp hfound)
          · exact Or.inr ⟨x, hx, rfl⟩
    · have hnot : nsNameOf Namespace res ∉ names := fun h => hfound ((hsame _).mpr h)
      obtain ⟨h1, h2⟩ := ih (nsNameOf Namespace res :: uniqNames)
        (names ++ [nsNameOf Namespace res])
        (fun s => by simp only [List.mem_cons, List.mem_append, List.mem_singleton, hsame s]; tauto)
        (by
          rw [List.nodup_append]
          refine ⟨hnodup, List.nodup_singleton _, ?_⟩
          intro a ha hb
          rw [List.mem_singleton] at hb
          exact hnot (hb ▸ ha))
      refine ⟨h1, fun s => ?_⟩
      rw [h2 s]
      simp only [List.mem_append, List.mem_singleton, List.mem_cons, List.mem_nil_iff, or_false]
      constructor
      · rintro ((h | rfl) | ⟨x, hx, rfl⟩)
        · exact Or.inl h
        · exact Or.inr ⟨res, Or.inl rfl, rfl⟩
        · exact Or.inr ⟨x, Or.inr hx, rfl⟩
      · rintro (h | ⟨x, rfl | hx, rfl⟩)
        · exact Or.inl (Or.inl h)
        · exact Or.inl (Or.inr rfl)
        · exact Or.inr ⟨x, hx, rfl⟩

/-- C12: for every list of resources, `nsNames` is strictly ascending in the
order of strings (sorted, without duplicates); its elements are exactly the
namespaces of the resources, with `(cluster)` for the empty namespace; and
for the empty list it is the empty list. -/
theorem nsNames_sorted_exact (Namespace : Res → String) (resources : List Res) :
    (nsNames Namespace resources).Sorted (fun a b => a < b) ∧
    (∀ s, s ∈ nsNames Namespace resources ↔
      ∃ res ∈ resources, s = (if Namespace res = "" then "(cluster)" else Namespace res)) ∧
    nsNames Namespace ([] : List Res) = [] := by
  obtain ⟨hnodup, hmem⟩ := nsNamesLoop_spec Namespace resources [] [] (fun _ => Iff.rfl)
    List.nodup_nil
  refine ⟨?_, ?_, rfl⟩
  · refine List.Sorted.lt_of_le (List.sorted_insertionSort _ _) ?_
    exact (List.perm_insertionSort _ _).nodup_iff.mpr hnodup
  · intro s
    unfold nsNames sortStrings
    rw [List.mem_insertionSort, hmem s]
    simp [nsNameOf]

end NsNames


section Nested

theorem nested_withoutHistory (enc : NestedRes → Except Err String)
    (dec : String → Except Err NestedRes)
    (exact : NestedRes → NestedRes → Except Err (Change NestedRes)) (r : NestedRes) :
    resourceWithoutHistory (nestedCollaborators enc dec exact) r
      = .ok (withoutHistoryAnnotations r) := by
  obtain ⟨annotations, fields⟩ := r
  cases annotations <;> rfl

theorem nested_readBack (enc : NestedRes → Except Err String)
    (dec : String → Except Err NestedRes)
    (exact : NestedRes → NestedRes → Except Err (Change NestedRes)) :
    AnnotationsReadBack (nestedCollaborators enc dec exact) := by
  intro t r r1 hmatch hpath hnodup happ kv hmem
  simp only [nestedCollaborators, nestedStringMapAppendApply, hmatch, hpath, if_true] at happ
  cases happ
  exact getKV_foldl_read _ _ hnodup kv hmem

theorem eraseHistory_eq_filter (m : List (String × String)) :
    eraseHistory m = m.filter (fun kv => decide (kv.1 ∉ historyKeys)) := by
  simp only [eraseHistory, eraseKey, List.filter_filter]
  congr 1
  funext kv
  rw [Bool.eq_iff_iff]
  simp only [historyKeys, Bool.and_eq_true, decide_eq_true_eq, List.mem_cons,
    List.mem_singleton, List.mem_nil_iff, or_false, not_or, ne_eq]
  tauto

theorem eraseHistory_eraseKey (k : String) (m : List (String × String)) :
    eraseHistory (eraseKey k m) = eraseKey k (eraseHistory m) := by
  simp only [eraseHistory_eq_filter, eraseKey, List.filter_filter]
  congr 1
  funext kv
  rw [Bool.and_comm]

theorem eraseHistory_idem (m : List (String × String)) :
    eraseHistory (eraseHistory m) = eraseHistory m := by
  simp only [eraseHistory_eq_filter, List.filter_filter, Bool.and_self]

theorem eraseHistory_setKV (k v : String) (m : List (String × String))
    (hk : k ∈ historyKeys) : eraseHistory (setKV k v m) = eraseHistory m := by
  induction m with
  | nil => simp [eraseHistory_eq_filter, setKV, hk]
  | cons p rest ih =>
    obtain ⟨k1, v1⟩ := p
    simp only [eraseHistory_eq_filter] at ih
    by_cases h : k1 = k
    · subst h
      simp [eraseHistory_eq_filter, setKV, hk]
    · simp only [setKV, h, if_false, eraseHistory_eq_filter, List.filter_cons, ih]

theorem eraseHistory_historyMod (bytes : String) (diff : OpsDiff) (m : List (String × String)) :
    eraseHistory ((ResourceWithHistory.historyMod bytes diff).KVs.foldl
      (fun m kv => setKV kv.1 kv.2 m) m) = eraseHistory m := by
  simp only [ResourceWithHistory.historyMod, List.foldl_cons, List.foldl_nil]
  rw [eraseHistory_setKV _ _ _ (by simp [historyKeys]),
    eraseHistory_setKV _ _ _ (by simp [historyKeys]),
    eraseHistory_setKV _ _ _ (by simp [historyKeys]),
    eraseHistory_setKV _ _ _ (by simp [historyKeys])]

theorem hasKey_eraseHistory (k : String) (m : List (String × String))
    (hk : k ∉ historyKeys) : hasKey k (eraseHistory m) = hasKey k m := by
  simp only [eraseHistory_eq_filter, hasKey, List.any_filter]
  congr 1
  funext kv
  by_cases h : kv.1 = k
  · simp [h, hk]
  · simp [h]

theorem withoutHistoryAnnotations_eq (a a2 : Option (List (String × String)))
    (f f2 : List (String × String)) :
    withoutHistoryAnnotations ⟨a, f⟩ = withoutHistoryAnnotations ⟨a2, f2⟩ ↔
      a.map eraseHistory = a2.map eraseHistory ∧ f = f2 := by
  simp [withoutHistoryAnnotations]

theorem removeInAnnotations_frame (rest : Path)
    (hrest : ∀ key p ps, rest = .mapKey key :: p :: ps → key ∉ historyKeys)
    (a a2 : Option (List (String × String))) (f : List (String × String)) (r1 : NestedRes)
    (ha : a.map eraseHistory = a2.map eraseHistory)
    (h : removeInAnnotations rest ⟨a, f⟩ = .ok r1) :
    ∃ r3, removeInAnnotations rest ⟨a2, f⟩ = .ok r3 ∧
      withoutHistoryAnnotations r1 = withoutHistoryAnnotations r3 := by
  cases rest with
  | nil =>
    simp only [removeInAnnotations] at h ⊢
    cases h
    exact ⟨_, rfl, rfl⟩
  | cons part rest2 =>
    cases a with
    | none =>
      cases a2 with
      | some m2 => simp at ha
      | none => exact ⟨r1, h, rfl⟩
    | some m =>
      cases a2 with
      | none => simp at ha
      | some m2 =>
        simp only [Option.map_some', Option.some.injEq] at ha
        cases part with
        | mapKey key =>
          simp only [removeInAnnotations] at h ⊢
          by_cases hnil : rest2 = []
          · simp only [hnil, if_true] at h ⊢
            cases h
            refine ⟨_, rfl, ?_⟩
            simp only [withoutHistoryAnnotations, Option.map_some', eraseHistory_eraseKey, ha]
          · simp only [hnil, if_false] at h ⊢
            have hkey : key ∉ historyKeys := by
              cases rest2 with
              | nil => exact absurd rfl hnil
              | cons p ps => exact hrest key p ps rfl
            have hhas : hasKey key m = hasKey key m2 := by
              rw [← hasKey_eraseHistory key m hkey, ← hasKey_eraseHistory key m2 hkey, ha]
            rw [← hhas]
            by_cases hk : hasKey key m = true
            · simp [hk] at h
            · simp only [hk, Bool.false_eq_true, if_false] at h ⊢
              cases h
              refine ⟨_, rfl, ?_⟩
              simp only [withoutHistoryAnnotations, Option.map_some', ha]
        | arrayIndex index => simp [removeInAnnotations] at h
        | allIndexes => simp [removeInAnnotations] at h

theorem nestedFieldRemoveApply_frame (t : FieldRemoveMod) (ht : belowHistoryKey t = false)
    (r r2 r1 : NestedRes)
    (heq : withoutHistoryAnnotations r = withoutHistoryAnnotations r2)
    (h : nestedFieldRemoveApply t r = .ok r1) :
    ∃ r3, nestedFieldRemoveApply t r2 = .ok r3 ∧
      withoutHistoryAnnotations r1 = withoutHistoryAnnotations r3 := by
  obtain ⟨matcher, path⟩ := t
  obtain ⟨a, f⟩ := r
  obtain ⟨a2, f2⟩ := r2
  obtain ⟨ha, rfl⟩ := (withoutHistoryAnnotations_eq a a2 f f2).mp heq
  cases matcher with
  | other tag =>
    simp only [nestedFieldRemoveApply] at h ⊢
    cases h
    exact ⟨_, rfl, heq⟩
  | AllResourceMatcher =>
    simp only [nestedFieldRemoveApply] at h ⊢
    cases path with
    | nil =>
      simp only [nestedRemove] at h ⊢
      cases h
      exact ⟨_, rfl, heq⟩
    | cons part rest =>
      cases part with
      | arrayIndex index => simp [nestedRemove] at h
      | allIndexes => simp [nestedRemove] at h
      | mapKey key =>
        simp only [nestedRemove] at h ⊢
        by_cases hmeta : key = "metadata"
        · simp only [hmeta, if_true] at h ⊢
          cases rest with
          | nil =>
            simp only [removeInMetadata] at h ⊢
            cases h
            exact ⟨_, rfl, rfl⟩
          | cons part2 rest2 =>
            cases part2 with
            | arrayIndex index => simp [removeInMetadata] at h
            | allIndexes => simp [removeInMetadata] at h
            | mapKey key2 =>
              simp only [removeInMetadata] at h ⊢
              by_cases hann : key2 = "annotations"
              · simp only [hann, if_true] at h ⊢
                refine removeInAnnotations_frame rest2 ?_ a a2 f r1 ha h
                intro key3 p ps hrest
                subst hmeta hann hrest
                simpa [belowHistoryKey] using ht
              · simp only [hann, if_false] at h ⊢
                cases h
                exact ⟨_, rfl, heq⟩
        · simp only [hmeta, if_false, removeInField] at h ⊢
          by_cases hnil : rest = []
          · simp only [hnil, if_true] at h ⊢
            cases h
            exact ⟨_, rfl, by simp [withoutHistoryAnnotations, ha]⟩
          · simp only [hnil, if_false] at h ⊢
            by_cases hk : hasKey key f = true
            · simp [hk] at h
            · simp only [hk, Bool.false_eq_true, if_false] at h ⊢
              cases h
              exact ⟨_, rfl, heq⟩

theorem nestedResourceWithRemovedFields_frame (mods : List FieldRemoveMod)
    (hmods : ∀ t ∈ mods, belowHistoryKey t = false) (r r2 r1 : NestedRes)
    (heq : withoutHistoryAnnotations r = withoutHistoryAnnotations r2)
    (h : nestedResourceWithRemovedFields r mods = .ok r1) :
    ∃ r3, nestedResourceWithRemovedFields r2 mods = .ok r3 ∧
      withoutHistoryAnnotations r1 = withoutHistoryAnnotations r3 := by
  induction mods generalizing r r2 with
  | nil =>
    simp only [nestedResourceWithRemovedFields] at h ⊢
    cases h
    exact ⟨_, rfl, heq⟩
  | cons t ts ih =>
    simp only [nestedResourceWithRemovedFields] at h ⊢
    cases ht : nestedFieldRemoveApply t r with
    | error e => simp [ht] at h
    | ok x =>
      simp only [ht] at h
      obtain ⟨x2, hx2, hxeq⟩ := nestedFieldRemoveApply_frame t
        (hmods t (List.mem_cons_self _ _)) r r2 x heq ht
      simp only [hx2]
      exact ih (fun u hu => hmods u (List.mem_cons_of_mem _ hu)) x x2 hxeq h

theorem withoutHistoryAnnotations_idem (r : NestedRes) :
    withoutHistoryAnnotations (withoutHistoryAnnotations r) = withoutHistoryAnnotations r := by
  obtain ⟨a, f⟩ := r
  cases a with
  | none => rfl
  | some m => simp [withoutHistoryAnnotations, eraseHistory_idem]

theorem nested_lastApplied_of_recorded (enc : NestedRes → Except Err String)
    (dec : String → Except Err NestedRes)
    (exact : NestedRes → NestedRes → Except Err (Change NestedRes))
    (mods : List FieldRemoveMod) (existing appliedRes resultRes live : NestedRes)
    (hrec : (NewResourceWithHistory existing (nestedCollaborators enc dec exact)
      mods).RecordLastAppliedResource appliedRes = .ok resultRes)
    (hmap : existing.annotations ≠ none)
    (hmods : ∀ t ∈ mods, belowHistoryKey t = false)
    (hnew : ExactChangeAppliesNew (nestedCollaborators enc dec exact))
    (htotal : ExactChangeTotal (nestedCollaborators enc dec exact))
    (hdigest : DigestNonEmpty (nestedCollaborators enc dec exact))
    (hcodec : DecodesBack (nestedCollaborators enc dec exact)
      (withoutHistoryAnnotations appliedRes))
    (hlorig : nestedAnnotations live appliedResAnnKey
      = nestedAnnotations resultRes appliedResAnnKey)
    (hlmd5 : nestedAnnotations live appliedResDiffMD5AnnKey
      = nestedAnnotations resultRes appliedResDiffMD5AnnKey)
    (hexcl : nestedResourceWithRemovedFields live mods
      = nestedResourceWithRemovedFields resultRes mods) :
    (NewResourceWithHistory live (nestedCollaborators enc dec exact) mods).LastAppliedResource
      = some (withoutHistoryAnnotations appliedRes) := by
  refine lastApplied_of_recorded
    (NewResourceWithHistory existing (nestedCollaborators enc dec exact) mods)
    appliedRes resultRes live (withoutHistoryAnnotations appliedRes) hrec
    (nested_withoutHistory enc dec exact appliedRes) ?_ (nested_readBack enc dec exact)
    hnew htotal hdigest hcodec hlorig hlmd5 ⟨_, nested_withoutHistory enc dec exact live⟩ ?_
  · have := nested_withoutHistory enc dec exact (withoutHistoryAnnotations appliedRes)
    rw [withoutHistoryAnnotations_idem] at this
    exact this
  · obtain ⟨e, a, ch, bytes, he, -, -, -, happ⟩ := record_ok _ appliedRes resultRes hrec
    obtain ⟨ann, f⟩ := existing
    cases ann with
    | none => exact absurd rfl hmap
    | some m =>
      simp only [NewResourceWithHistory, nestedCollaborators, nestedStringMapAppendApply,
        ResourceWithHistory.historyMod, annotationsPath, if_true] at happ
      cases happ
      have heq : withoutHistoryAnnotations ⟨some m, f⟩
          = withoutHistoryAnnotations
              ⟨some ((ResourceWithHistory.historyMod bytes ch.OpsDiff).KVs.foldl
                (fun m kv => setKV kv.1 kv.2 m) m), f⟩ := by
        simp only [withoutHistoryAnnotations, Option.map_some', eraseHistory_historyMod]
      simp only [existingForLastApplied, NewResourceWithHistory, nestedCollaborators] at he ⊢
      rw [hexcl]
      cases hx : nestedResourceWithRemovedFields ⟨some m, f⟩ mods with
      | error err => simp [hx] at he
      | ok x =>
        obtain ⟨x2, hx2, hxeq⟩ := nestedResourceWithRemovedFields_frame mods hmods _ _ x heq hx
        simp only [ResourceWithHistory.historyMod, Option.getD_some] at hx2 ⊢
        simp only [hx2]
        have h1 := nested_withoutHistory enc dec exact x
        have h2 := nested_withoutHistory enc dec exact x2
        simp only [nestedCollaborators] at h1 h2
        rw [h1, h2, hxeq]

theorem nested_historyless_of_recorded (enc : NestedRes → Except Err String)
    (dec : String → Except Err NestedRes)
    (exact : NestedRes → NestedRes → Except Err (Change NestedRes))
    (mods : List FieldRemoveMod) (existing appliedRes resultRes : NestedRes)
    (hrec : (NewResourceWithHistory existing (nestedCollaborators enc dec exact)
      mods).RecordLastAppliedResource appliedRes = .ok resultRes)
    (hmap : existing.annotations ≠ none) :
    (NewResourceWithHistory resultRes (nestedCollaborators enc dec exact)
        mods).HistorylessResource
      = (NewResourceWithHistory existing (nestedCollaborators enc dec exact)
          mods).HistorylessResource := by
  obtain ⟨e, a, ch, bytes, -, -, -, -, happ⟩ := record_ok _ appliedRes resultRes hrec
  obtain ⟨ann, f⟩ := existing
  cases ann with
  | none => exact absurd rfl hmap
  | some m =>
    simp only [NewResourceWithHistory, nestedCollaborators, nestedStringMapAppendApply,
      ResourceWithHistory.historyMod, annotationsPath, if_true] at happ
    cases happ
    have h1 := nested_withoutHistory enc dec exact ⟨some m, f⟩
    have h2 := nested_withoutHistory enc dec exact
      ⟨some ((ResourceWithHistory.historyMod bytes ch.OpsDiff).KVs.foldl
        (fun m kv => setKV kv.1 kv.2 m) m), f⟩
    simp only [ResourceWithHistory.HistorylessResource, NewResourceWithHistory]
    simp only [ResourceWithHistory.historyMod, Option.getD_some] at h2 ⊢
    rw [h1, h2]
    have := eraseHistory_historyMod bytes ch.OpsDiff m
    simp only [ResourceWithHistory.historyMod] at this
    simp only [withoutHistoryAnnotations, Option.map_some', this]

theorem nested_historyless_idem (enc : NestedRes → Except Err String)
    (dec : String → Except Err NestedRes)
    (exact : NestedRes → NestedRes → Except Err (Change NestedRes)) (x y : NestedRes)
    (h : resourceWithoutHistory (nestedCollaborators enc dec exact) x = .ok y) :
    resourceWithoutHistory (nestedCollaborators enc dec exact) y = .ok y := by
  rw [nested_withoutHistory] at h
  cases h
  rw [nested_withoutHistory, withoutHistoryAnnotations_idem]

theorem nestedSample_appliesNew : ExactChangeAppliesNew nestedSample := by
  intro x y ch h
  cases h
  rfl

theorem nestedSample_total : ExactChangeTotal nestedSample :=
  fun _ _ => ⟨_, rfl⟩

theorem nestedSample_digest : DigestNonEmpty nestedSample := by
  intro x y ch h
  cases h
  simp only [nestedOpsDiff, String.length_append]
  have : "md5(".length = 4 := by decide
  omega

theorem nestedSample_decodes_notedApplied : DecodesBack nestedSample notedApplied := by
  intro bytes h
  cases h
  exact ⟨by decide, rfl⟩

end Nested


section RoundTrip

/-- C1 (as amended): for a live resource that has an annotations map, and field
exclusions of which none addresses a field below a history annotation: if
recording `appliedRes` succeeds with `resultRes`, the last applied resource
recovered from `resultRes` is not nil and is `appliedRes` without its history
annotations.  The serialization is assumed to decode back, and
`NewExactChange` to return, for every pair, a change whose applied resource is
the new resource and whose digest is not empty. -/
theorem lastApplied_after_record (enc : NestedRes → Except Err String)
    (dec : String → Except Err NestedRes)
    (exact : NestedRes → NestedRes → Except Err (Change NestedRes))
    (mods : List FieldRemoveMod) (existing appliedRes resultRes : NestedRes)
    (hrec : (NewResourceWithHistory existing (nestedCollaborators enc dec exact)
      mods).RecordLastAppliedResource appliedRes = .ok resultRes)
    (hmap : existing.annotations ≠ none)
    (hmods : ∀ t ∈ mods, belowHistoryKey t = false)
    (hnew : ExactChangeAppliesNew (nestedCollaborators enc dec exact))
    (htotal : ExactChangeTotal (nestedCollaborators enc dec exact))
    (hdigest : DigestNonEmpty (nestedCollaborators enc dec exact))
    (hcodec : DecodesBack (nestedCollaborators enc dec exact)
      (withoutHistoryAnnotations appliedRes)) :
    (NewResourceWithHistory resultRes (nestedCollaborators enc dec exact)
        mods).LastAppliedResource
      = some (withoutHistoryAnnotations appliedRes) :=
  nested_lastApplied_of_recorded enc dec exact mods existing appliedRes resultRes resultRes
    hrec hmap hmods hnew htotal hdigest hcodec rfl rfl rfl

/-- C1, witness: recording on `notedLive` with `status` excluded, and
recovering. -/
theorem lastApplied_after_record_witness :
    (NewResourceWithHistory notedLive nestedSample
      [statusExclusion]).RecordLastAppliedResource notedAppliedStale = .ok notedRecorded ∧
    (NewResourceWithHistory notedRecorded nestedSample [statusExclusion]).LastAppliedResource
      = some notedApplied :=
  ⟨rfl, lastApplied_after_record (fun r => .ok (nestedRender r)) nestedParse
    nestedNewExactChange [statusExclusion] notedLive notedAppliedStale notedRecorded rfl
    (by decide) (by decide) nestedSample_appliesNew nestedSample_total nestedSample_digest
    nestedSample_decodes_notedApplied⟩

/-- C1, counterexample: an applied resource that carries a history annotation
is recorded, and what is recovered is not that resource; and with an
exclusion whose path goes on below the `original` annotation, the recording
succeeds and nothing is recovered from its result. -/
theorem record_then_recover_differs :
    ((NewResourceWithHistory notedLive nestedSample
        [statusExclusion]).RecordLastAppliedResource notedAppliedStale = .ok notedRecorded ∧
      (NewResourceWithHistory notedRecorded nestedSample
        [statusExclusion]).LastAppliedResource ≠ some notedAppliedStale) ∧
    ((NewResourceWithHistory notedLive nestedSample
        [statusExclusion, belowOriginalExclusion]).RecordLastAppliedResource notedApplied
        = .ok notedRecorded ∧
      (NewResourceWithHistory notedRecorded nestedSample
        [statusExclusion, belowOriginalExclusion]).LastAppliedResource = none) := by
  refine ⟨⟨rfl, ?_⟩, rfl, rfl⟩
  have h : (NewResourceWithHistory notedRecorded nestedSample
      [statusExclusion]).LastAppliedResource = some notedApplied := rfl
  rw [h]
  decide

/-- C5 (as amended): for a live resource that had an annotations map when the
snapshot was recorded, and field exclusions of which none addresses a field
below a history annotation: after a recording of `appliedRes` with result
`resultRes`, every live resource that carries the recorded `original` and
`original-diff-md5` and is `resultRes` once the excluded fields are removed
(it differs in excluded fields only) yields `appliedRes` without history
annotations, whatever the digest of the exact diff is.  The assumptions on the
serialization and on `NewExactChange` are those of C1. -/
theorem lastApplied_tolerates_exclusions (enc : NestedRes → Except Err String)
    (dec : String → Except Err NestedRes)
    (exact : NestedRes → NestedRes → Except Err (Change NestedRes))
    (mods : List FieldRemoveMod) (existing appliedRes resultRes live : NestedRes)
    (hrec : (NewResourceWithHistory existing (nestedCollaborators enc dec exact)
      mods).RecordLastAppliedResource appliedRes = .ok resultRes)
    (hmap : existing.annotations ≠ none)
    (hmods : ∀ t ∈ mods, belowHistoryKey t = false)
    (hnew : ExactChangeAppliesNew (nestedCollaborators enc dec exact))
    (htotal : ExactChangeTotal (nestedCollaborators enc dec exact))
    (hdigest : DigestNonEmpty (nestedCollaborators enc dec exact))
    (hcodec : DecodesBack (nestedCollaborators enc dec exact)
      (withoutHistoryAnnotations appliedRes))
    (hlorig : nestedAnnotations live appliedResAnnKey
      = nestedAnnotations resultRes appliedResAnnKey)
    (hlmd5 : nestedAnnotations live appliedResDiffMD5AnnKey
      = nestedAnnotations resultRes appliedResDiffMD5AnnKey)
    (hexcl : nestedResourceWithRemovedFields live mods
      = nestedResourceWithRemovedFields resultRes mods) :
    (NewResourceWithHistory live (nestedCollaborators enc dec exact) mods).LastAppliedResource
      = some (withoutHistoryAnnotations appliedRes) :=
  nested_lastApplied_of_recorded enc dec exact mods existing appliedRes resultRes live
    hrec hmap hmods hnew htotal hdigest hcodec hlorig hlmd5 hexcl

/-- C5, witness: `status` changed after the recording; the digest of the exact
diff does not match (without the exclusion nothing is recovered), the digest
with `status` excluded does. -/
theorem lastApplied_tolerates_exclusions_witness :
    (NewResourceWithHistory notedStatusChanged nestedSample []).LastAppliedResource = none ∧
    (NewResourceWithHistory notedStatusChanged nestedSample
      [statusExclusion]).LastAppliedResource = some notedApplied :=
  ⟨rfl, lastApplied_tolerates_exclusions (fun r => .ok (nestedRender r)) nestedParse
    nestedNewExactChange [statusExclusion] notedLive notedApplied notedRecorded
    notedStatusChanged rfl (by decide) (by decide) nestedSample_appliesNew nestedSample_total
    nestedSample_digest nestedSample_decodes_notedApplied rfl rfl rfl⟩

/-- C5, counterexample: the digest was computed with the exclusions applied, one
of them addressing a field below the `original` annotation; after the
recording only `status` changes, and nothing is recovered. -/
theorem snapshot_lost_below_history_annotation :
    (NewResourceWithHistory notedLive nestedSample
      [statusExclusion, belowOriginalExclusion]).RecordLastAppliedResource notedApplied
      = .ok notedRecorded ∧
    nestedResourceWithRemovedFields notedStatusChanged [statusExclusion]
      = nestedResourceWithRemovedFields notedRecorded [statusExclusion] ∧
    (NewResourceWithHistory notedStatusChanged nestedSample
      [statusExclusion, belowOriginalExclusion]).LastAppliedResource = none :=
  ⟨rfl, rfl, rfl⟩

/-- C11, the failing input: recording on a live resource without
`metadata.annotations` creates the map, and removing the four history keys
from the result leaves the map, empty; the live resource without history has
no map.  The two differ, and the digest recomputed on the result is not the
recorded one: nothing is recovered. -/
theorem historyless_after_record_keeps_empty_map :
    (NewResourceWithHistory bareLive nestedSample []).RecordLastAppliedResource bareApplied
      = .ok bareRecorded ∧
    (NewResourceWithHistory bareRecorded nestedSample []).HistorylessResource
      = .ok { annotations := some [], fields := [("spec", "v1")] } ∧
    (NewResourceWithHistory bareLive nestedSample []).HistorylessResource = .ok bareLive ∧
    (NewResourceWithHistory bareRecorded nestedSample []).HistorylessResource
      ≠ (NewResourceWithHistory bareLive nestedSample []).HistorylessResource ∧
    (NewResourceWithHistory bareRecorded nestedSample []).LastAppliedResource = none := by
  refine ⟨rfl, rfl, rfl, ?_, rfl⟩
  have h1 : (NewResourceWithHistory bareRecorded nestedSample []).HistorylessResource
      = .ok { annotations := some [], fields := [("spec", "v1")] } := rfl
  have h2 : (NewResourceWithHistory bareLive nestedSample []).HistorylessResource
      = .ok bareLive := rfl
  rw [h1, h2]
  intro h
  exact absurd (Except.ok.inj h) (by decide)

end RoundTrip

end Kapp
